import Mathlib

/-!
Verification of the generation-request orchestration core of tg-bawer.

The development shallowly embeds the Go sources:

* `bot/aspect_ratio.go` (`resolveAspectRatio`) and `gemini/client.go`
  (`GetImageInfo`, `buildGenerateURL`, the supported-ratio catalog);
* `bot/retry.go` (`buildRetryQualities`, `enqueueFailedGeneration`,
  `retryOneFailedGeneration`, `sendRetrySuccessResult`);
* the retry loop of `bot/bot.go` (`handleTextMessage`);
* the media-group cache of `bot/bot.go` (`cacheMediaGroupImage`,
  `getMediaGroupImages`, `cleanupMediaGroupCache`);
* the SQLite-backed store of `database/database.go` (`AddUserService`,
  `SetDefaultUserService`, `DeleteUserService`, `AddFailedGeneration`,
  `MarkFailedGenerationRetry`, `DeleteFailedGeneration`).

Modelling conventions: Go `float64` ratio arithmetic is modelled over `ℚ`
(exact reals; the comparisons proved here are robust, far from the rounding
margin of the doubles involved).  Image bytes are represented by the result
of decoding their header: `none` when `image.DecodeConfig` fails, otherwise
the pixel dimensions.  Wall-clock instants are integers (seconds).  Network
sends and provider calls are oracles supplied as explicit arguments, and the
SQL tables are association lists holding the same columns.
-/

namespace TgBawer

/-! ### Strings: Go `strings.TrimSpace` -/

/-- Characters dropped from both ends by `strings.TrimSpace` (ASCII
whitespace; the Go original also trims non-ASCII Unicode space, which never
occurs in the strings this development handles). -/
def isSpaceChar (c : Char) : Bool := c.isWhitespace

/-- Drop leading whitespace from a character list. -/
def trimLeftChars (cs : List Char) : List Char := cs.dropWhile isSpaceChar

/-- Drop leading and trailing whitespace from a character list. -/
def trimChars (cs : List Char) : List Char :=
  (trimLeftChars (trimLeftChars cs).reverse).reverse

/-- Embedding of Go `strings.TrimSpace`. -/
def trimSpace (s : String) : String := ⟨trimChars s.data⟩

/-- `defaultAspectRatio` of `bot/aspect_ratio.go`. -/
def defaultAspectRatio : String := "1:1"

/-- One entry of the `supportedRatios` catalog of `gemini/client.go`. -/
structure RatioEntry where
  name : String
  value : ℚ
deriving DecidableEq, Repr

/-- The fixed `supportedRatios` catalog of `gemini/client.go`. -/
def supportedRatios : List RatioEntry :=
  [⟨"1:1", 1⟩, ⟨"2:3", 2 / 3⟩, ⟨"3:2", 3 / 2⟩, ⟨"3:4", 3 / 4⟩,
   ⟨"4:3", 4 / 3⟩, ⟨"4:5", 4 / 5⟩, ⟨"5:4", 5 / 4⟩, ⟨"9:16", 9 / 16⟩,
   ⟨"16:9", 16 / 9⟩, ⟨"21:9", 21 / 9⟩]

/-- An input image, represented by what decoding its header yields:
`none` when `image.DecodeConfig` fails, otherwise `(width, height)`. -/
structure DownloadedImage where
  decoded : Option (Nat × Nat)
deriving DecidableEq, Repr

/-- `ImageInfo` of `gemini/client.go`: `aspectRatio` is the matched catalog
name, or `""` meaning "let the provider decide". -/
structure ImageInfo where
  width : Nat
  height : Nat
  aspectRatio : String
deriving DecidableEq, Repr

/-- One step of `GetImageInfo`'s scan for the catalog entry with minimal
absolute difference (`diff < minDiff` keeps the earlier entry on ties; the
Go sentinel `math.MaxFloat64` is modelled by `none`, which the first entry
always replaces, exactly as every finite diff beats the sentinel). -/
def scanStep (actual : ℚ) (acc : Option (String × ℚ)) (e : RatioEntry) :
    Option (String × ℚ) :=
  let diff := |actual - e.value|
  match acc with
  | none => some (e.name, diff)
  | some best => if diff < best.2 then some (e.name, diff) else acc

/-- The full catalog scan of `GetImageInfo`. -/
def scanRatios (actual : ℚ) : Option (String × ℚ) :=
  supportedRatios.foldl (scanStep actual) none

/-- Embedding of `GetImageInfo` of `gemini/client.go`: decode the header,
find the nearest supported ratio, and clear the match when its relative
error exceeds the 10% threshold. -/
def getImageInfo (img : DownloadedImage) : Option ImageInfo :=
  match img.decoded with
  | none => none
  | some (w, h) =>
    let actualRatio : ℚ := (w : ℚ) / (h : ℚ)
    match scanRatios actualRatio with
    | none => some ⟨w, h, ""⟩
    | some (matched, minDiff) =>
      if minDiff / actualRatio > 1 / 10 then some ⟨w, h, ""⟩
      else some ⟨w, h, matched⟩

/-- Embedding of `resolveAspectRatio` of `bot/aspect_ratio.go`. -/
def resolveAspectRatio (requested : String)
    (downloadedImages : List DownloadedImage) : String :=
  let r := trimSpace requested
  if r ≠ "" then r
  else
    match downloadedImages with
    | [] => defaultAspectRatio
    | img :: _ =>
      match getImageInfo img with
      | none => defaultAspectRatio
      | some info =>
        if info.aspectRatio = "" then defaultAspectRatio else info.aspectRatio

/-- `ImageResult` of `gemini/client.go` (abstract payload bytes). -/
structure ImageResult where
  imageData : List Nat
deriving DecidableEq, Repr

/-- Embedding of `buildRetryQualities` of `bot/retry.go`: six tries, all at
the request's quality (defaulting to `"2K"`), never downgraded. -/
def buildRetryQualities (quality : String) : List String :=
  let q := if quality = "" then "2K" else quality
  [q, q, q, q, q, q]

/-- The quality every try effectively uses. -/
def effQuality (quality : String) : String := if quality = "" then "2K" else quality

/-- Observable events of the live retry loop of `handleTextMessage`: one
provider call per iteration, and the fixed `time.Sleep(2s)` after a
failure. -/
inductive GenEvent where
  | providerCall (attempt : Nat) (quality : String)
  | sleepSeconds (seconds : Nat)
deriving DecidableEq, Repr

/-- The retry loop of `handleTextMessage` (`bot/bot.go`): walk the quality
list, call the provider once per entry, stop at the first success, sleep two
seconds after each failure, and keep the last error.  `provider i q` is the
outcome of the `GenerateImageWithContext` / `GenerateImageFromText` call of
attempt `i` at quality `q`.  The `[]` case is unreachable: the driver always
receives the six-entry list. -/
def runAttemptsAux (provider : Nat → String → Except String ImageResult) :
    List String → Nat → List GenEvent × Except String ImageResult
  | [], _ => ([], Except.error "")
  | q :: rest, i =>
    match provider i q with
    | Except.ok res => ([GenEvent.providerCall i q], Except.ok res)
    | Except.error e =>
      match rest with
      | [] => ([GenEvent.providerCall i q, GenEvent.sleepSeconds 2],
               Except.error e)
      | r :: rs =>
        let next := runAttemptsAux provider (r :: rs) (i + 1)
        (GenEvent.providerCall i q :: GenEvent.sleepSeconds 2 :: next.1, next.2)

/-- The whole live attempt sequence for one generation request. -/
def attemptDriver (quality : String)
    (provider : Nat → String → Except String ImageResult) :
    List GenEvent × Except String ImageResult :=
  runAttemptsAux provider (buildRetryQualities quality) 0

def isProviderCall : GenEvent → Bool
  | GenEvent.providerCall _ _ => true
  | _ => false

/-- Number of provider calls in a trace. -/
def countCalls (tr : List GenEvent) : Nat := tr.countP isProviderCall

/-- Traces whose provider calls are separated by exactly one 2-second
sleep (and contain nothing else). -/
inductive Spaced : List GenEvent → Prop
  | nil : Spaced []
  | single (i : Nat) (q : String) : Spaced [GenEvent.providerCall i q]
  | cons (i : Nat) (q : String) (rest : List GenEvent) (h : Spaced rest) :
      Spaced (GenEvent.providerCall i q :: GenEvent.sleepSeconds 2 :: rest)

/-- A concrete provider for the C1 witness: fails on the first attempt,
succeeds on the second. -/
def witFlakyProvider : Nat → String → Except String ImageResult :=
  fun i _ => if i = 0 then Except.error "boom" else Except.ok ⟨[7]⟩

def serviceTypeStandard : String := "standard"

def serviceTypeCustom : String := "custom"

def serviceTypeVertex : String := "vertex"

def defaultGeminiBaseURL : String := "https://generativelanguage.googleapis.com"

def defaultVertexBaseURL : String := "https://aiplatform.googleapis.com"

def defaultImageModel : String := "gemini-3-pro-image-preview"

/-- Go `strings.ToLower` (ASCII case folding suffices for the inputs). -/
def toLowerStr (s : String) : String := ⟨s.data.map Char.toLower⟩

/-- Embedding of `normalizeServiceType` of `gemini/client.go`. -/
def normalizeServiceType (serviceType : String) : String :=
  let normalized := toLowerStr (trimSpace serviceType)
  if normalized = "" ∨ normalized = "gemini" ∨ normalized = "standard" ∨
      normalized = "origin" ∨ normalized = "original" then serviceTypeStandard
  else if normalized = "custom" then serviceTypeCustom
  else if normalized = "vertex" ∨ normalized = "gcp" then serviceTypeVertex
  else serviceTypeStandard

/-- Does the second list occur at the head of the first? -/
def charsStart : List Char → List Char → Bool
  | _, [] => true
  | [], _ :: _ => false
  | c :: cs, p :: ps => c == p && charsStart cs ps

/-- Does the second list occur anywhere inside the first? -/
def charsContain : List Char → List Char → Bool
  | [], pat => pat.isEmpty
  | c :: cs, pat => charsStart (c :: cs) pat || charsContain cs pat

/-- Go `strings.Contains`. -/
def containsSubstr (s pat : String) : Bool := charsContain s.data pat.data

/-- Go `strings.TrimRight(s, "/")`. -/
def trimRightSlashes (s : String) : String :=
  ⟨(s.data.reverse.dropWhile (· == '/')).reverse⟩

/-- The fields of `gemini.Client` that `buildGenerateURL` reads. -/
structure Client where
  apiKey : String
  baseURL : String
  serviceType : String
  projectID : String
  location : String
deriving DecidableEq, Repr

/-- The endpoint `buildGenerateURL` settles on, by construction path: a
base URL that already names a full `:generateContent` endpoint, a
Vertex project/location-scoped path, or the standard path.  The final
string assembly around these components (`fmt.Sprintf`, `url.PathEscape`,
`appendAPIKey`'s `url.Parse`/query re-encoding) is string formatting at the
external boundary and is not modelled further. -/
inductive GenerateURL where
  | direct (rawBase apiKey : String)
  | vertexURL (base projectID location model apiKey : String)
  | standardURL (base model apiKey : String)
deriving DecidableEq, Repr

inductive URLError where
  | emptyAPIKey
  | invalidBackendConfig
deriving DecidableEq, Repr

/-- Embedding of `buildGenerateURL` of `gemini/client.go`. -/
def buildGenerateURL (c : Client) (model : String) :
    Except URLError GenerateURL :=
  if trimSpace c.apiKey = "" then Except.error URLError.emptyAPIKey
  else
    let baseURL := trimSpace c.baseURL
    let serviceType := normalizeServiceType c.serviceType
    let model0 := trimSpace model
    let model1 := if model0 = "" then defaultImageModel else model0
    if containsSubstr baseURL ":generateContent" then
      Except.ok (GenerateURL.direct baseURL c.apiKey)
    else if serviceType = serviceTypeVertex then
      let baseURL1 := if baseURL = "" then defaultVertexBaseURL else baseURL
      let projectID := trimSpace c.projectID
      let location := trimSpace c.location
      if projectID = "" ∨ location = "" then
        Except.error URLError.invalidBackendConfig
      else
        Except.ok (GenerateURL.vertexURL (trimRightSlashes baseURL1) projectID
          location model1 c.apiKey)
    else
      let baseURL1 := if baseURL = "" then defaultGeminiBaseURL else baseURL
      Except.ok (GenerateURL.standardURL (trimRightSlashes baseURL1) model1
        c.apiKey)

/-- `cachedImage` of `bot/bot.go` (timestamps in seconds). -/
structure CachedImage where
  fileID : String
  timestamp : Int
deriving DecidableEq, Repr

/-- The `mediaGroupCache` table keyed by MediaGroupID (the Go map is
modelled as an association list without duplicate keys). -/
abbrev MediaGroupCache := List (String × List CachedImage)

/-- Map indexing `b.mediaGroups.groups[mediaGroupID]` (empty when absent). -/
def lookupGroup (cache : MediaGroupCache) (gid : String) : List CachedImage :=
  match cache.find? (fun kv => kv.1 == gid) with
  | some kv => kv.2
  | none => []

/-- Embedding of `cacheMediaGroupImage`: append the file ID with the
current time to the batch, creating the batch on first use. -/
def cacheMediaGroupImage (cache : MediaGroupCache) (gid fid : String)
    (now : Int) : MediaGroupCache :=
  if cache.any (fun kv => kv.1 == gid) then
    cache.map (fun kv =>
      if kv.1 == gid then (kv.1, kv.2 ++ [⟨fid, now⟩]) else kv)
  else
    cache ++ [(gid, [⟨fid, now⟩])]

/-- Embedding of `getMediaGroupImages`: a copy of the batch's file IDs in
stored order. -/
def getMediaGroupImages (cache : MediaGroupCache) (gid : String) :
    List String :=
  (lookupGroup cache gid).map CachedImage.fileID

/-- The 10-minute eviction threshold of `cleanupMediaGroupCache`. -/
def evictionThresholdSeconds : Int := 600

/-- The per-batch eviction test of `cleanupMediaGroupCache`:
`len(images) > 0 && now.Sub(images[0].Timestamp) > 10*time.Minute`. -/
def groupExpired (imgs : List CachedImage) (now : Int) : Bool :=
  match imgs with
  | [] => false
  | first :: _ => decide (now - first.timestamp > evictionThresholdSeconds)

/-- Embedding of one sweep of `cleanupMediaGroupCache`: drop every batch
whose first entry is older than the threshold. -/
def cleanupMediaGroupCache (cache : MediaGroupCache) (now : Int) :
    MediaGroupCache :=
  cache.filter (fun kv => !groupExpired kv.2 now)

/-- `gemini.ServiceConfig`. -/
structure ServiceConfig where
  type : String
  name : String
  apiKey : String
  baseURL : String
  projectID : String
  location : String
  model : String
deriving DecidableEq, Repr

/-- `failedGenerationPayload` of `bot/retry.go`. -/
structure FailedPayload where
  prompt : String
  quality : String
  aspectRatio : String
  imageFileIDs : List String
  service : ServiceConfig
deriving DecidableEq, Repr

/-- A `failed_generations` row.  `payload` holds the parsed
`failedGenerationPayload`: `none` models stored JSON that `json.Unmarshal`
rejects, which cannot arise from `enqueueFailedGeneration` (its payload is
`json.Marshal` of the struct and round-trips losslessly). -/
structure FailedGeneration where
  id : Nat
  userID : Int
  chatID : Int
  replyToMessageID : Int
  payload : Option FailedPayload
  lastError : String
  retryCount : Nat
  createdAt : Int
  lastRetryAt : Option Int
deriving DecidableEq, Repr

/-- `AddFailedGeneration` of `database/database.go`: insert a row with
`retry_count = 0` and a null `last_retry_at`. -/
def addFailedGeneration (q : List FailedGeneration) (nextID : Nat)
    (userID chatID replyToMessageID : Int) (payload : Option FailedPayload)
    (lastError : String) (now : Int) : List FailedGeneration :=
  q ++ [⟨nextID, userID, chatID, replyToMessageID, payload, lastError, 0,
    now, none⟩]

/-- `MarkFailedGenerationRetry` of `database/database.go`:
`retry_count = retry_count + 1`, overwrite `last_error`, stamp
`last_retry_at`. -/
def markFailedGenerationRetry (q : List FailedGeneration) (id : Nat)
    (lastError : String) (now : Int) : List FailedGeneration :=
  q.map (fun t => if t.id = id then
    { t with
      retryCount := t.retryCount + 1
      lastError := lastError
      lastRetryAt := some now } else t)

/-- `DeleteFailedGeneration` of `database/database.go`. -/
def deleteFailedGeneration (q : List FailedGeneration) (id : Nat) :
    List FailedGeneration :=
  q.filter (fun t => t.id != id)

/-- `truncateError` of `bot/bot.go` (byte length modelled by character
count; the strings this development evaluates it on are ASCII). -/
def truncateError (e : String) : String :=
  if 200 < e.data.length then
    String.mk (e.data.take 200) ++ "...\n(error text truncated)"
  else e

/-- `enqueueFailedGeneration` of `bot/retry.go`: marshal the payload and
insert it with the truncated error text. -/
def enqueueFailedGeneration (q : List FailedGeneration) (nextID : Nat)
    (userID chatID replyToMessageID : Int) (payload : FailedPayload)
    (lastError : String) (now : Int) : List FailedGeneration :=
  addFailedGeneration q nextID userID chatID replyToMessageID (some payload)
    (truncateError lastError) now

/-- The external outcomes one scheduler tick can meet: backend
re-resolution, image downloads, the single generation call, and the three
result sends (`none` = the send succeeded, `some e` = it failed). -/
structure ReplayEnv where
  resolveService : Except String ServiceConfig
  download : Except String (List DownloadedImage)
  generate : Except String ImageResult
  sendNotice : Option String
  sendPhoto : Option String
  sendDocument : Option String
deriving Repr

inductive MsgKind where
  | retryNotice
  | retryPhoto
  | retryDocument
deriving DecidableEq, Repr

/-- Store and chat effects of one replay tick, in program order. -/
inductive Effect where
  | sendMsg (kind : MsgKind) (chatID : Int) (replyTo : Option Int)
  | markRetry (id : Nat) (lastError : String)
  | deleteTask (id : Nat)
deriving DecidableEq, Repr

/-- The reply target of the success messages: the original message when its
ID is positive. -/
def noticeReplyTo (t : FailedGeneration) : Option Int :=
  if 0 < t.replyToMessageID then some t.replyToMessageID else none

/-- `sendRetrySuccessResult` of `bot/retry.go`: notice, photo and document
to the task's original chat in order, stopping at the first send failure.
Returns the delivered messages and the first send error, if any.  (The Go
nil-result guard is unreachable: a successful generation call always
carries a result.) -/
def sendRetrySuccessResult (t : FailedGeneration) (env : ReplayEnv) :
    List Effect × Option String :=
  match env.sendNotice with
  | some e => ([], some e)
  | none =>
    match env.sendPhoto with
    | some e =>
      ([Effect.sendMsg MsgKind.retryNotice t.chatID (noticeReplyTo t)], some e)
    | none =>
      match env.sendDocument with
      | some e =>
        ([Effect.sendMsg MsgKind.retryNotice t.chatID (noticeReplyTo t),
          Effect.sendMsg MsgKind.retryPhoto t.chatID (noticeReplyTo t)],
         some e)
      | none =>
        ([Effect.sendMsg MsgKind.retryNotice t.chatID (noticeReplyTo t),
          Effect.sendMsg MsgKind.retryPhoto t.chatID (noticeReplyTo t),
          Effect.sendMsg MsgKind.retryDocument t.chatID (noticeReplyTo t)],
         none)

/-- The backend a replay uses: the payload's embedded service when it still
carries credentials, otherwise the freshly resolved one. -/
def replayService (p : FailedPayload) (env : ReplayEnv) :
    Except String ServiceConfig :=
  if p.service.apiKey = "" then env.resolveService else Except.ok p.service

/-- One scheduler tick on one selected task: `retryOneFailedGeneration` of
`bot/retry.go`.  Returns the new queue and the effect trace in program
order.  An unparseable payload is deleted; every failure before or during
delivery marks the task; a delivered success deletes the task. -/
def retryOneFailedGeneration (q : List FailedGeneration)
    (t : FailedGeneration) (env : ReplayEnv) (now : Int) :
    List FailedGeneration × List Effect :=
  match t.payload with
  | none => (deleteFailedGeneration q t.id, [Effect.deleteTask t.id])
  | some p =>
    match replayService p env with
    | Except.error e =>
      (markFailedGenerationRetry q t.id e now, [Effect.markRetry t.id e])
    | Except.ok _ =>
      match env.download with
      | Except.error e =>
        (markFailedGenerationRetry q t.id e now, [Effect.markRetry t.id e])
      | Except.ok imgs =>
        let _aspectRatio := resolveAspectRatio p.aspectRatio imgs
        match env.generate with
        | Except.error e =>
          (markFailedGenerationRetry q t.id e now, [Effect.markRetry t.id e])
        | Except.ok _ =>
          match sendRetrySuccessResult t env with
          | (sent, some e) =>
            (markFailedGenerationRetry q t.id e now,
             sent ++ [Effect.markRetry t.id e])
          | (sent, none) =>
            (deleteFailedGeneration q t.id, sent ++ [Effect.deleteTask t.id])

/-- The first error a replay tick meets before delivery, if any. -/
def pipelineError (p : FailedPayload) (env : ReplayEnv) : Option String :=
  match replayService p env with
  | Except.error e => some e
  | Except.ok _ =>
    match env.download with
    | Except.error e => some e
    | Except.ok _ =>
      match env.generate with
      | Except.error e => some e
      | Except.ok _ => none

/-- The first delivery error, if any. -/
def sendError (env : ReplayEnv) : Option String :=
  match env.sendNotice with
  | some e => some e
  | none =>
    match env.sendPhoto with
    | some e => some e
    | none => env.sendDocument

/-- The first error a replay tick meets anywhere, if any. -/
def replayError (p : FailedPayload) (env : ReplayEnv) : Option String :=
  match pipelineError p env with
  | some e => some e
  | none => sendError env

/-- The row `MarkFailedGenerationRetry` turns a task into. -/
def markedTask (t : FailedGeneration) (e : String) (now : Int) :
    FailedGeneration :=
  { t with
    retryCount := t.retryCount + 1
    lastError := e
    lastRetryAt := some now }

def witService : ServiceConfig := ⟨"standard", "s", "k", "", "", "", ""⟩

def witPayload : FailedPayload := ⟨"translate", "2K", "1:1", [], witService⟩

/-- The row scenario C's live path enqueues. -/
def witTask : FailedGeneration :=
  ⟨1, 10, 20, 30, some witPayload, "boom", 0, 0, none⟩

/-- A replay environment whose single generation call fails. -/
def witFailEnv : ReplayEnv :=
  ⟨Except.ok witService, Except.ok [], Except.error "still boom",
   none, none, none⟩

/-- A replay environment whose generation call and all three sends
succeed. -/
def witOkEnv : ReplayEnv :=
  ⟨Except.ok witService, Except.ok [], Except.ok ⟨[1]⟩, none, none, none⟩

/-- A `user_services` row, restricted to the fields the default-service
invariant concerns.  `createdAt` is the insert clock's logical timestamp. -/
structure UserService where
  id : Nat
  userID : Int
  isDefault : Bool
  createdAt : Nat
deriving DecidableEq, Repr

/-- The `user_services` table together with the AUTOINCREMENT id counter
and the insert clock. -/
structure ServiceStore where
  services : List UserService
  nextID : Nat
  nextTime : Nat
deriving DecidableEq, Repr

def emptyStore : ServiceStore := ⟨[], 1, 0⟩

/-- `UPDATE user_services SET is_default = FALSE WHERE user_id = ?`. -/
def clearDefaults (l : List UserService) (u : Int) : List UserService :=
  l.map (fun s => if s.userID = u then { s with isDefault := false } else s)

/-- `UPDATE user_services SET is_default = TRUE WHERE id = ?`. -/
def setDefaultByID (l : List UserService) (sid : Nat) : List UserService :=
  l.map (fun s => if s.id = sid then { s with isDefault := true } else s)

/-- `SELECT COUNT(*) FROM user_services WHERE user_id = ?`. -/
def userCount (l : List UserService) (u : Int) : Nat :=
  l.countP (fun s => s.userID == u)

/-- The number of the user's default rows. -/
def defaultCount (l : List UserService) (u : Int) : Nat :=
  l.countP (fun s => s.userID == u && s.isDefault)

/-- `AddUserService` of `database/database.go`, one transaction: clear the
user's defaults when inserting as default, insert the row, and promote the
row when it turned out to be the user's only one. -/
def addUserService (st : ServiceStore) (u : Int) (setAsDefault : Bool) :
    ServiceStore :=
  let base :=
    if setAsDefault then clearDefaults st.services u else st.services
  let inserted := base ++ [⟨st.nextID, u, setAsDefault, st.nextTime⟩]
  let final :=
    if setAsDefault = false ∧ userCount inserted u = 1 then
      setDefaultByID inserted st.nextID
    else inserted
  ⟨final, st.nextID + 1, st.nextTime + 1⟩

/-- `SetDefaultUserService` of `database/database.go`: clear the user's
defaults, set the chosen row; zero affected rows rolls the transaction
back. -/
def setDefaultUserService (st : ServiceStore) (u : Int) (sid : Nat) :
    ServiceStore :=
  if st.services.any (fun s => s.userID == u && s.id == sid) then
    { st with
      services := st.services.map (fun s =>
        if s.userID = u then { s with isDefault := decide (s.id = sid) }
        else s) }
  else st

/-- One comparison step of the `ORDER BY created_at DESC LIMIT 1` scan. -/
def latestStep (acc : Option UserService) (s : UserService) :
    Option UserService :=
  match acc with
  | none => some s
  | some b => if b.createdAt < s.createdAt then some s else acc

/-- `SELECT id FROM user_services WHERE user_id = ? ORDER BY created_at
DESC LIMIT 1`: a row with the greatest creation time. -/
def latestService (l : List UserService) : Option UserService :=
  l.foldl latestStep none

/-- `DeleteUserService` of `database/database.go`, one transaction: read
whether the row was the default, delete it, and if it was, promote the
user's most recently created remaining row. -/
def deleteUserService (st : ServiceStore) (u : Int) (sid : Nat) :
    ServiceStore :=
  match st.services.find? (fun s => s.userID == u && s.id == sid) with
  | none => st
  | some svc =>
    let remaining := st.services.filter
      (fun s => !(s.userID == u && s.id == sid))
    let final :=
      if svc.isDefault then
        match latestService (remaining.filter (fun s => s.userID == u)) with
        | none => remaining
        | some nxt => setDefaultByID remaining nxt.id
      else remaining
    { st with services := final }

/-- The operations of the `/service` command that touch the table. -/
inductive SvcOp where
  | add (userID : Int) (setAsDefault : Bool)
  | setDefault (userID : Int) (serviceID : Nat)
  | del (userID : Int) (serviceID : Nat)
deriving DecidableEq, Repr

def applySvcOp (st : ServiceStore) : SvcOp → ServiceStore
  | SvcOp.add u d => addUserService st u d
  | SvcOp.setDefault u sid => setDefaultUserService st u sid
  | SvcOp.del u sid => deleteUserService st u sid

/-- Run an operation sequence from the empty store. -/
def runSvcOps (ops : List SvcOp) : ServiceStore :=
  ops.foldl applySvcOp emptyStore

/-- Well-formedness of reachable stores: row ids below the id counter and
pairwise distinct, and the per-user default invariant. -/
structure StoreWF (st : ServiceStore) : Prop where
  idBound : ∀ s ∈ st.services, s.id < st.nextID
  idsNodup : (st.services.map UserService.id).Nodup
  defaults : ∀ u : Int, defaultCount st.services u ≤ 1 ∧
    (0 < userCount st.services u → defaultCount st.services u = 1)

theorem dropWhile_isSpace_idem (l : List Char) :
    (l.dropWhile isSpaceChar).dropWhile isSpaceChar = l.dropWhile isSpaceChar := by
  induction l with
  | nil => rfl
  | cons a l ih =>
    by_cases h : isSpaceChar a
    · simp [List.dropWhile_cons, h, ih]
    · simp [List.dropWhile_cons, h]

theorem head_dropWhile_isSpace (l : List Char) :
    ∀ a, (l.dropWhile isSpaceChar).head? = some a → isSpaceChar a = false := by
  induction l with
  | nil => intro a h; simp at h
  | cons b l ih =>
    intro a h
    by_cases hb : isSpaceChar b
    · rw [List.dropWhile_cons_of_pos hb] at h
      exact ih a h
    · rw [List.dropWhile_cons_of_neg hb] at h
      simp at h
      subst h
      simpa using hb

theorem dropWhile_eq_self_of_head (l : List Char)
    (h : ∀ a, l.head? = some a → isSpaceChar a = false) :
    l.dropWhile isSpaceChar = l := by
  cases l with
  | nil => rfl
  | cons a l =>
    have ha := h a (by simp)
    simp [List.dropWhile_cons, ha]

theorem getLast?_dropWhile_isSpace (l : List Char)
    (h : l.dropWhile isSpaceChar ≠ []) :
    (l.dropWhile isSpaceChar).getLast? = l.getLast? := by
  induction l with
  | nil => simp at h
  | cons a l ih =>
    by_cases ha : isSpaceChar a
    · rw [List.dropWhile_cons_of_pos ha] at h ⊢
      have hl : l ≠ [] := by
        intro hnil
        rw [hnil] at h
        simp at h
      rw [ih h]
      cases l with
      | nil => exact absurd rfl hl
      | cons b t => simp [List.getLast?_cons_cons]
    · rw [List.dropWhile_cons_of_neg ha]

theorem trimChars_trimChars (l : List Char) :
    trimChars (trimChars l) = trimChars l := by
  unfold trimChars trimLeftChars
  set C := l.dropWhile isSpaceChar with hC
  set D := C.reverse.dropWhile isSpaceChar with hD
  by_cases hDnil : D = []
  · simp [hDnil]
  · have hne : C.reverse.dropWhile isSpaceChar ≠ [] := by
      rw [← hD]; exact hDnil
    have hstep : D.reverse.dropWhile isSpaceChar = D.reverse := by
      apply dropWhile_eq_self_of_head
      intro a ha
      rw [List.head?_reverse, hD, getLast?_dropWhile_isSpace _ hne,
        List.getLast?_reverse, hC] at ha
      exact head_dropWhile_isSpace l a ha
    rw [hstep, List.reverse_reverse, hD, dropWhile_isSpace_idem]

theorem trimSpace_trimSpace (s : String) :
    trimSpace (trimSpace s) = trimSpace s := by
  unfold trimSpace
  exact congrArg String.mk (trimChars_trimChars s.data)

theorem trimSpace_eq_empty_iff (s : String) :
    trimSpace s = "" ↔ trimChars s.data = [] := by
  unfold trimSpace
  exact ⟨fun h => congrArg String.data h, fun h => congrArg String.mk h⟩

/-! ### Aspect ratios (`gemini/client.go` and `bot/aspect_ratio.go`) -/

/-- Concrete evaluation: a 1000×600 header nearest-matches the catalog's
16:9 entry within the 10% threshold. -/
theorem getImageInfo_1000_600 :
    getImageInfo ⟨some (1000, 600)⟩ = some ⟨1000, 600, "16:9"⟩ := by
  simp only [getImageInfo, scanRatios, supportedRatios, scanStep, List.foldl]
  norm_num [abs]

/-- Concrete evaluation: a 100×1 header (ratio 100) is farther than 10%
from every catalog entry, so the match is cleared. -/
theorem getImageInfo_100_1 :
    getImageInfo ⟨some (100, 1)⟩ = some ⟨100, 1, ""⟩ := by
  simp only [getImageInfo, scanRatios, supportedRatios, scanStep, List.foldl]
  norm_num [abs]

theorem scanStep_foldl_isSome (actual : ℚ) (l : List RatioEntry) :
    ∀ b : String × ℚ, ∃ c, l.foldl (scanStep actual) (some b) = some c := by
  induction l with
  | nil => intro b; exact ⟨b, rfl⟩
  | cons e l ih =>
    intro b
    simp only [List.foldl_cons]
    by_cases hlt : |actual - e.value| < b.2
    · simpa [scanStep, hlt] using ih (e.name, |actual - e.value|)
    · simpa [scanStep, hlt] using ih b

theorem scanStep_foldl_mono (actual : ℚ) (l : List RatioEntry) :
    ∀ (b c : String × ℚ), l.foldl (scanStep actual) (some b) = some c →
      c.2 ≤ b.2 := by
  induction l with
  | nil =>
    intro b c h
    simp only [List.foldl_nil, Option.some.injEq] at h
    exact h ▸ le_refl _
  | cons e l ih =>
    intro b c h
    simp only [List.foldl_cons] at h
    by_cases hlt : |actual - e.value| < b.2
    · rw [show scanStep actual (some b) e = some (e.name, |actual - e.value|) by
        simp [scanStep, hlt]] at h
      exact le_of_lt (lt_of_le_of_lt (ih _ _ h) hlt)
    · rw [show scanStep actual (some b) e = some b by simp [scanStep, hlt]] at h
      exact ih _ _ h

theorem scanStep_foldl_lb (actual : ℚ) (l : List RatioEntry) :
    ∀ (acc : Option (String × ℚ)) (c : String × ℚ),
      l.foldl (scanStep actual) acc = some c →
      ∀ e ∈ l, c.2 ≤ |actual - e.value| := by
  induction l with
  | nil => intro acc c _ e he; simp at he
  | cons f l ih =>
    intro acc c h e he
    simp only [List.foldl_cons] at h
    rcases List.mem_cons.mp he with rfl | hel
    · cases acc with
      | none =>
        rw [show scanStep actual none e = some (e.name, |actual - e.value|) from
          rfl] at h
        exact scanStep_foldl_mono actual l _ _ h
      | some b =>
        by_cases hlt : |actual - e.value| < b.2
        · rw [show scanStep actual (some b) e = some (e.name, |actual - e.value|)
            by simp [scanStep, hlt]] at h
          exact scanStep_foldl_mono actual l _ _ h
        · rw [show scanStep actual (some b) e = some b by simp [scanStep, hlt]] at h
          exact le_trans (scanStep_foldl_mono actual l _ _ h) (not_lt.mp hlt)
    · exact ih _ _ h e hel

theorem scanStep_foldl_mem (actual : ℚ) (l : List RatioEntry) :
    ∀ (acc : Option (String × ℚ)) (c : String × ℚ),
      l.foldl (scanStep actual) acc = some c →
      acc = some c ∨ ∃ e ∈ l, c = (e.name, |actual - e.value|) := by
  induction l with
  | nil => intro acc c h; exact Or.inl h
  | cons f l ih =>
    intro acc c h
    simp only [List.foldl_cons] at h
    rcases ih _ _ h with hacc | ⟨e, hel, hc⟩
    · cases acc with
      | none =>
        rw [show scanStep actual none f = some (f.name, |actual - f.value|) from
          rfl] at hacc
        right
        refine ⟨f, List.mem_cons_self _ _, ?_⟩
        simpa using hacc.symm
      | some b =>
        by_cases hlt : |actual - f.value| < b.2
        · rw [show scanStep actual (some b) f = some (f.name, |actual - f.value|)
            by simp [scanStep, hlt]] at hacc
          right
          refine ⟨f, List.mem_cons_self _ _, ?_⟩
          simpa using hacc.symm
        · rw [show scanStep actual (some b) f = some b by simp [scanStep, hlt]]
            at hacc
          exact Or.inl hacc
    · exact Or.inr ⟨e, List.mem_cons_of_mem _ hel, hc⟩

theorem scanStep_foldl_ne_nil (actual : ℚ) (l : List RatioEntry) (hl : l ≠ []) :
    ∃ c, l.foldl (scanStep actual) none = some c := by
  cases l with
  | nil => exact absurd rfl hl
  | cons e l =>
    rw [List.foldl_cons]
    exact scanStep_foldl_isSome actual l (e.name, |actual - e.value|)

/-- The catalog scan always finds a match (the catalog is non-empty). -/
theorem scanRatios_isSome (actual : ℚ) : ∃ c, scanRatios actual = some c := by
  unfold scanRatios
  exact scanStep_foldl_ne_nil actual supportedRatios (by simp [supportedRatios])

/-- What the catalog scan returns: the name and absolute difference of a
catalog entry whose difference is minimal over the whole catalog. -/
theorem scanRatios_spec (actual : ℚ) (nm : String) (d : ℚ)
    (h : scanRatios actual = some (nm, d)) :
    (∃ e ∈ supportedRatios, nm = e.name ∧ d = |actual - e.value|) ∧
      ∀ e ∈ supportedRatios, d ≤ |actual - e.value| := by
  constructor
  · rcases scanStep_foldl_mem actual supportedRatios none (nm, d) h with
      hnone | ⟨e, hel, hc⟩
    · cases hnone
    · exact ⟨e, hel, congrArg Prod.fst hc, congrArg Prod.snd hc⟩
  · exact scanStep_foldl_lb actual supportedRatios none (nm, d) h

/-- Every catalog name is a fixed point of trimming and non-empty. -/
theorem catalogName_fixed :
    ∀ e ∈ supportedRatios, trimSpace e.name = e.name ∧ e.name ≠ "" := by
  decide

/-- When `getImageInfo` reports a non-empty ratio, it is a catalog name. -/
theorem getImageInfo_ratio_mem (img : DownloadedImage) (info : ImageInfo)
    (h : getImageInfo img = some info) (hne : info.aspectRatio ≠ "") :
    ∃ e ∈ supportedRatios, info.aspectRatio = e.name := by
  unfold getImageInfo at h
  rcases hd : img.decoded with _ | ⟨w, ht⟩
  · rw [hd] at h; exact absurd h (by simp)
  · rw [hd] at h
    dsimp only at h
    rcases hs : scanRatios ((w : ℚ) / (ht : ℚ)) with _ | ⟨nm, d⟩
    · rw [hs] at h
      dsimp only at h
      simp only [Option.some.injEq] at h
      rw [← h] at hne
      exact absurd rfl hne
    · rw [hs] at h
      dsimp only at h
      by_cases hth : d / ((w : ℚ) / (ht : ℚ)) > 1 / 10
      · rw [if_pos hth] at h
        simp only [Option.some.injEq] at h
        rw [← h] at hne
        exact absurd rfl hne
      · rw [if_neg hth] at h
        simp only [Option.some.injEq] at h
        rcases (scanRatios_spec _ _ _ hs).1 with ⟨e, hel, hnm, _⟩
        rw [← h]
        exact ⟨e, hel, hnm⟩

/-- The resolver's output is always non-empty and trim-fixed: the key fact
behind both totality and replay-idempotence. -/
theorem resolveAspectRatio_fixed (r : String) (imgs : List DownloadedImage) :
    trimSpace (resolveAspectRatio r imgs) = resolveAspectRatio r imgs ∧
      resolveAspectRatio r imgs ≠ "" := by
  have hdef : trimSpace defaultAspectRatio = defaultAspectRatio ∧
      defaultAspectRatio ≠ ("" : String) := by decide
  by_cases hr : trimSpace r = ""
  · rcases imgs with _ | ⟨img, rest⟩
    · have h1 : resolveAspectRatio r [] = defaultAspectRatio := by
        unfold resolveAspectRatio; simp [hr]
      rw [h1]; exact hdef
    · rcases hi : getImageInfo img with _ | info
      · have h1 : resolveAspectRatio r (img :: rest) = defaultAspectRatio := by
          unfold resolveAspectRatio; simp [hr, hi]
        rw [h1]; exact hdef
      · by_cases hne : info.aspectRatio = ""
        · have h1 : resolveAspectRatio r (img :: rest) = defaultAspectRatio := by
            unfold resolveAspectRatio; simp [hr, hi, hne]
          rw [h1]; exact hdef
        · have h1 : resolveAspectRatio r (img :: rest) = info.aspectRatio := by
            unfold resolveAspectRatio; simp [hr, hi, hne]
          rw [h1]
          rcases getImageInfo_ratio_mem img info hi hne with ⟨e, hel, hname⟩
          rcases catalogName_fixed e hel with ⟨hfix, hnee⟩
          rw [hname]
          exact ⟨hfix, hnee⟩
  · have h1 : resolveAspectRatio r imgs = trimSpace r := by
      unfold resolveAspectRatio; simp [hr]
    rw [h1]
    exact ⟨trimSpace_trimSpace r, hr⟩

theorem resolveAspectRatio_of_trim_ne (r : String) (imgs : List DownloadedImage)
    (hr : trimSpace r ≠ "") : resolveAspectRatio r imgs = trimSpace r := by
  unfold resolveAspectRatio; simp [hr]

theorem resolveAspectRatio_nil (r : String) (hr : trimSpace r = "") :
    resolveAspectRatio r [] = defaultAspectRatio := by
  unfold resolveAspectRatio; simp [hr]

theorem resolveAspectRatio_cons_none (r : String) (img : DownloadedImage)
    (rest : List DownloadedImage) (hr : trimSpace r = "")
    (hi : getImageInfo img = none) :
    resolveAspectRatio r (img :: rest) = defaultAspectRatio := by
  unfold resolveAspectRatio; simp [hr, hi]

theorem resolveAspectRatio_cons_some (r : String) (img : DownloadedImage)
    (rest : List DownloadedImage) (info : ImageInfo) (hr : trimSpace r = "")
    (hi : getImageInfo img = some info) :
    resolveAspectRatio r (img :: rest) =
      (if info.aspectRatio = "" then defaultAspectRatio else info.aspectRatio) := by
  unfold resolveAspectRatio
  by_cases hne : info.aspectRatio = "" <;> simp [hr, hi, hne]

/-- Evaluation of `getImageInfo` on decodable input, given the scan result. -/
theorem getImageInfo_eval (w h : Nat) (nm : String) (d : ℚ)
    (hs : scanRatios ((w : ℚ) / (h : ℚ)) = some (nm, d)) :
    getImageInfo ⟨some (w, h)⟩ =
      (if d / ((w : ℚ) / (h : ℚ)) > 1 / 10 then some ⟨w, h, ""⟩
       else some ⟨w, h, nm⟩) := by
  unfold getImageInfo
  dsimp only
  rw [hs]

/-- When the image ratio is farther than 10% from every catalog entry,
`GetImageInfo` clears the match (the spec's "no preference"). -/
theorem getImageInfo_far (w h : Nat) (hw : 0 < w) (hh : 0 < h)
    (hfar : ∀ e ∈ supportedRatios,
      10 * |(w : ℚ) / (h : ℚ) - e.value| > (w : ℚ) / (h : ℚ)) :
    getImageInfo ⟨some (w, h)⟩ = some ⟨w, h, ""⟩ := by
  have hpos : (0 : ℚ) < (w : ℚ) / (h : ℚ) := by positivity
  obtain ⟨⟨nm, d⟩, hs⟩ := scanRatios_isSome ((w : ℚ) / (h : ℚ))
  obtain ⟨⟨e, hel, _, hd⟩, _⟩ := scanRatios_spec _ _ _ hs
  have hdiv : d / ((w : ℚ) / (h : ℚ)) > 1 / 10 := by
    rw [gt_iff_lt, div_lt_div_iff₀ (by norm_num) hpos]
    have := hfar e hel
    rw [← hd] at this
    linarith
  rw [getImageInfo_eval w h nm d hs, if_pos hdiv]

/-- When some catalog entry is within the 10% relative-error threshold,
`GetImageInfo` reports the catalog entry of minimal absolute difference. -/
theorem getImageInfo_near (w h : Nat) (hw : 0 < w) (hh : 0 < h)
    (hnear : ∃ e ∈ supportedRatios,
      10 * |(w : ℚ) / (h : ℚ) - e.value| ≤ (w : ℚ) / (h : ℚ)) :
    ∃ e ∈ supportedRatios, getImageInfo ⟨some (w, h)⟩ = some ⟨w, h, e.name⟩ ∧
      ∀ f ∈ supportedRatios,
        |(w : ℚ) / (h : ℚ) - e.value| ≤ |(w : ℚ) / (h : ℚ) - f.value| := by
  have hpos : (0 : ℚ) < (w : ℚ) / (h : ℚ) := by positivity
  obtain ⟨⟨nm, d⟩, hs⟩ := scanRatios_isSome ((w : ℚ) / (h : ℚ))
  obtain ⟨⟨e, hel, hnm, hd⟩, hmin⟩ := scanRatios_spec _ _ _ hs
  obtain ⟨f, hf, hfle⟩ := hnear
  have hdiv : ¬ (d / ((w : ℚ) / (h : ℚ)) > 1 / 10) := by
    rw [gt_iff_lt, not_lt, div_le_div_iff₀ hpos (by norm_num)]
    have := hmin f hf
    linarith
  refine ⟨e, hel, ?_, ?_⟩
  · rw [getImageInfo_eval w h nm d hs, if_neg hdiv, hnm]
  · intro g hg
    rw [← hd]
    exact hmin g hg

/-- C3 as stated is false: on a decodable image farther than 10% from every
catalog entry and no explicit ratio, `resolveAspectRatio` returns the
default catalog ratio `"1:1"`, not the empty "no preference" value (that
empty value exists only on `GetImageInfo`'s output, which the resolver
replaces with the default). A 100×1 image (ratio 100) is such an input. -/
theorem resolveAspectRatio_far_counterexample :
    (∀ e ∈ supportedRatios,
      10 * |(100 : ℚ) / (1 : ℚ) - e.value| > (100 : ℚ) / (1 : ℚ)) ∧
    resolveAspectRatio "" [⟨some (100, 1)⟩] = "1:1" ∧
    resolveAspectRatio "" [⟨some (100, 1)⟩] ≠ "" := by
  have h2 : resolveAspectRatio "" [⟨some (100, 1)⟩] = "1:1" := by
    simp [resolveAspectRatio, getImageInfo_100_1, trimSpace, trimChars,
      trimLeftChars, defaultAspectRatio]
  refine ⟨?_, h2, ?_⟩
  · intro e he
    fin_cases he <;> norm_num [abs]
  · rw [h2]; decide

/-- C3 amended: with no explicit ratio and a first image whose ratio is
farther than 10% from every catalog entry, `GetImageInfo` reports the empty
"no preference" ratio, and `resolveAspectRatio` then falls back to the
default `"1:1"` rather than any detected catalog ratio. -/
theorem resolveAspectRatio_far_fallback (requested : String) (w h : Nat)
    (rest : List DownloadedImage) (hreq : trimSpace requested = "")
    (hw : 0 < w) (hh : 0 < h)
    (hfar : ∀ e ∈ supportedRatios,
      10 * |(w : ℚ) / (h : ℚ) - e.value| > (w : ℚ) / (h : ℚ)) :
    (∃ info, getImageInfo ⟨some (w, h)⟩ = some info ∧ info.aspectRatio = "") ∧
    resolveAspectRatio requested (⟨some (w, h)⟩ :: rest) = defaultAspectRatio := by
  have hi := getImageInfo_far w h hw hh hfar
  refine ⟨⟨⟨w, h, ""⟩, hi, rfl⟩, ?_⟩
  rw [resolveAspectRatio_cons_some requested _ rest _ hreq hi]
  simp

/-- Witness for the amended C3 at the concrete 100×1 image. -/
theorem resolveAspectRatio_far_fallback_witness :
    (∃ info, getImageInfo ⟨some (100, 1)⟩ = some info ∧ info.aspectRatio = "") ∧
    resolveAspectRatio "" [⟨some (100, 1)⟩] = defaultAspectRatio :=
  resolveAspectRatio_far_fallback "" 100 1 [] (by decide) (by decide) (by decide)
    (by intro e he; fin_cases he <;> norm_num [abs])

/-- C4: the resolver's contract. An explicit (trimmed) ratio always wins
regardless of images; no image and no explicit ratio yields the hard
default `"1:1"`; a decodable first image within the 10% threshold resolves
to the catalog entry of minimal absolute difference, and in particular
1000×600 resolves to `"16:9"`. -/
theorem resolveAspectRatio_contract :
    (∀ (requested : String) (imgs : List DownloadedImage),
        trimSpace requested ≠ "" →
        resolveAspectRatio requested imgs = trimSpace requested) ∧
    (∀ requested : String, trimSpace requested = "" →
        resolveAspectRatio requested [] = "1:1") ∧
    (∀ (requested : String) (w h : Nat) (rest : List DownloadedImage),
        trimSpace requested = "" → 0 < w → 0 < h →
        (∃ e ∈ supportedRatios,
          10 * |(w : ℚ) / (h : ℚ) - e.value| ≤ (w : ℚ) / (h : ℚ)) →
        ∃ e ∈ supportedRatios,
          resolveAspectRatio requested (⟨some (w, h)⟩ :: rest) = e.name ∧
          ∀ f ∈ supportedRatios,
            |(w : ℚ) / (h : ℚ) - e.value| ≤ |(w : ℚ) / (h : ℚ) - f.value|) ∧
    resolveAspectRatio "" [⟨some (1000, 600)⟩] = "16:9" := by
  refine ⟨resolveAspectRatio_of_trim_ne, fun r hr => resolveAspectRatio_nil r hr,
    ?_, ?_⟩
  · intro requested w h rest hreq hw hh hnear
    obtain ⟨e, hel, hi, hmin⟩ := getImageInfo_near w h hw hh hnear
    have hne : e.name ≠ "" := (catalogName_fixed e hel).2
    refine ⟨e, hel, ?_, hmin⟩
    rw [resolveAspectRatio_cons_some requested _ rest _ hreq hi]
    simp [hne]
  · simp [resolveAspectRatio, getImageInfo_1000_600, trimSpace, trimChars,
      trimLeftChars]

/-- Witness for C4's hypotheses at concrete inputs: an explicit ratio with
an image present, a blank request with no image, and the 1000×600 image. -/
theorem resolveAspectRatio_contract_witness :
    resolveAspectRatio "16:9" [⟨some (100, 1)⟩] = "16:9" ∧
    resolveAspectRatio " " [] = "1:1" ∧
    (∃ e ∈ supportedRatios,
      resolveAspectRatio "" [⟨some (1000, 600)⟩] = e.name ∧
      ∀ f ∈ supportedRatios,
        |(1000 : ℚ) / (600 : ℚ) - e.value| ≤ |(1000 : ℚ) / (600 : ℚ) - f.value|) :=
  ⟨(resolveAspectRatio_contract.1 "16:9" [⟨some (100, 1)⟩] (by decide)).trans
      (by decide),
   resolveAspectRatio_contract.2.1 " " (by decide),
   resolveAspectRatio_contract.2.2.1 "" 1000 600 [] (by decide) (by decide)
     (by decide)
     ⟨⟨"16:9", 16 / 9⟩, by simp [supportedRatios], by norm_num [abs]⟩⟩

/-- C8: replaying a stored, already-resolved ratio through the same resolver
with any freshly downloaded images reproduces exactly the stored ratio. -/
theorem resolveAspectRatio_replay_idem (r : String)
    (imgs imgs2 : List DownloadedImage) :
    resolveAspectRatio (resolveAspectRatio r imgs) imgs2 =
      resolveAspectRatio r imgs := by
  obtain ⟨hfix, hne⟩ := resolveAspectRatio_fixed r imgs
  have hstep := resolveAspectRatio_of_trim_ne (resolveAspectRatio r imgs) imgs2
    (by rw [hfix]; exact hne)
  rw [hstep, hfix]

/-- C10: the resolver is total and never returns the empty "let the provider
decide" value; the undecodable-image and over-10%-deviation edge cases both
fall back to the default `"1:1"`. -/
theorem resolveAspectRatio_total :
    (∀ (r : String) (imgs : List DownloadedImage),
        resolveAspectRatio r imgs ≠ "") ∧
    (∀ (r : String) (rest : List DownloadedImage), trimSpace r = "" →
        resolveAspectRatio r (⟨none⟩ :: rest) = "1:1") ∧
    (∀ (r : String) (w h : Nat) (rest : List DownloadedImage),
        trimSpace r = "" → 0 < w → 0 < h →
        (∀ e ∈ supportedRatios,
          10 * |(w : ℚ) / (h : ℚ) - e.value| > (w : ℚ) / (h : ℚ)) →
        resolveAspectRatio r (⟨some (w, h)⟩ :: rest) = "1:1") := by
  refine ⟨fun r imgs => (resolveAspectRatio_fixed r imgs).2, ?_, ?_⟩
  · intro r rest hr
    exact resolveAspectRatio_cons_none r ⟨none⟩ rest hr rfl
  · intro r w h rest hr hw hh hfar
    have hi := getImageInfo_far w h hw hh hfar
    rw [resolveAspectRatio_cons_some r _ rest _ hr hi]
    simp [defaultAspectRatio]

/-- Witness for C10 at concrete inputs: an undecodable first image and the
far-off 100×1 image. -/
theorem resolveAspectRatio_total_witness :
    resolveAspectRatio "x" [] ≠ "" ∧
    resolveAspectRatio "" [⟨none⟩] = "1:1" ∧
    resolveAspectRatio "" [⟨some (100, 1)⟩] = "1:1" :=
  ⟨resolveAspectRatio_total.1 "x" [],
   resolveAspectRatio_total.2.1 "" [] (by decide),
   resolveAspectRatio_total.2.2 "" 100 1 [] (by decide) (by decide) (by decide)
     (by intro e he; fin_cases he <;> norm_num [abs])⟩


/-! ### Generation attempt driver (`bot/retry.go` and `bot/bot.go`) -/

theorem runAttemptsAux_countCalls (provider : Nat → String → Except String ImageResult) :
    ∀ (qs : List String) (i : Nat),
      countCalls (runAttemptsAux provider qs i).1 ≤ qs.length := by
  intro qs
  induction qs with
  | nil => intro i; simp [runAttemptsAux, countCalls]
  | cons q rest ih =>
    intro i
    unfold runAttemptsAux
    rcases hp : provider i q with e | res
    · cases rest with
      | nil => simp [countCalls, List.countP_cons, isProviderCall]
      | cons r rs =>
        have := ih (i + 1)
        simp [countCalls, List.countP_cons, isProviderCall,
          List.length_cons] at this ⊢
        omega
    · simp [countCalls, List.countP_cons, isProviderCall]

theorem runAttemptsAux_quality (provider : Nat → String → Except String ImageResult)
    (c : String) :
    ∀ (qs : List String) (i : Nat), (∀ q ∈ qs, q = c) →
      ∀ j q, GenEvent.providerCall j q ∈ (runAttemptsAux provider qs i).1 →
        q = c := by
  intro qs
  induction qs with
  | nil => intro i _ j q hmem; simp [runAttemptsAux] at hmem
  | cons q0 rest ih =>
    intro i hall j q hmem
    have hq0 : q0 = c := hall q0 (by simp)
    unfold runAttemptsAux at hmem
    rcases hp : provider i q0 with e | res
    · rw [hp] at hmem
      cases rest with
      | nil =>
        simp at hmem
        obtain ⟨h1, h2⟩ := hmem
        rw [h2]; exact hq0
      | cons r rs =>
        simp only [List.mem_cons] at hmem
        rcases hmem with heq | heq | hmem
        · obtain ⟨h1, h2⟩ : j = i ∧ q = q0 := by simpa using heq
          rw [h2]; exact hq0
        · exact absurd heq (by simp)
        · exact ih (i + 1) (fun x hx => hall x (List.mem_cons_of_mem _ hx)) j q hmem
    · rw [hp] at hmem
      simp at hmem
      obtain ⟨h1, h2⟩ := hmem
      rw [h2]; exact hq0

theorem runAttemptsAux_spaced (provider : Nat → String → Except String ImageResult) :
    ∀ (qs : List String) (i : Nat), Spaced (runAttemptsAux provider qs i).1 := by
  intro qs
  induction qs with
  | nil => intro i; exact Spaced.nil
  | cons q rest ih =>
    intro i
    unfold runAttemptsAux
    rcases hp : provider i q with e | res
    · cases rest with
      | nil => exact Spaced.cons i q [] Spaced.nil
      | cons r rs => exact Spaced.cons i q _ (ih (i + 1))
    · exact Spaced.single i q

theorem runAttemptsAux_first_success
    (provider : Nat → String → Except String ImageResult) (c : String) :
    ∀ (qs : List String) (i k : Nat), (∀ q ∈ qs, q = c) → k < qs.length →
      (∀ j, j < k → ∃ e, provider (i + j) c = Except.error e) →
      (∃ r, provider (i + k) c = Except.ok r) →
      (runAttemptsAux provider qs i).2 = provider (i + k) c ∧
      countCalls (runAttemptsAux provider qs i).1 = k + 1 := by
  intro qs
  induction qs with
  | nil => intro i k _ hk _ _; simp at hk
  | cons q0 rest ih =>
    intro i k hall hk hfail hok
    have hq0 : q0 = c := hall q0 (by simp)
    subst hq0
    cases k with
    | zero =>
      obtain ⟨r, hr⟩ := hok
      rw [Nat.add_zero] at hr
      unfold runAttemptsAux
      rw [hr]
      refine ⟨?_, ?_⟩
      · simp [hr]
      · simp [countCalls, List.countP_cons, isProviderCall]
    | succ k =>
      obtain ⟨e, he⟩ := hfail 0 (Nat.succ_pos k)
      rw [Nat.add_zero] at he
      cases rest with
      | nil => simp at hk
      | cons r rs =>
        unfold runAttemptsAux
        rw [he]
        have ih2 := ih (i + 1) k
          (fun x hx => hall x (List.mem_cons_of_mem _ hx))
          (by simp at hk ⊢; omega)
          (fun j hj => by
            obtain ⟨e2, he2⟩ := hfail (j + 1) (by omega)
            exact ⟨e2, by rw [show i + 1 + j = i + (j + 1) by omega]; exact he2⟩)
          (by
            obtain ⟨r2, hr2⟩ := hok
            exact ⟨r2, by rw [show i + 1 + k = i + (k + 1) by omega]; exact hr2⟩)
        constructor
        · rw [show i + (k + 1) = i + 1 + k by omega]
          exact ih2.1
        · have := ih2.2
          simp [countCalls, List.countP_cons, isProviderCall] at this ⊢
          omega

theorem runAttemptsAux_all_fail
    (provider : Nat → String → Except String ImageResult) (c : String) :
    ∀ (qs : List String) (i : Nat), qs ≠ [] → (∀ q ∈ qs, q = c) →
      (∀ j, j < qs.length → ∃ e, provider (i + j) c = Except.error e) →
      (runAttemptsAux provider qs i).2 = provider (i + (qs.length - 1)) c := by
  intro qs
  induction qs with
  | nil => intro i hne _ _; exact absurd rfl hne
  | cons q0 rest ih =>
    intro i _ hall hfail
    have hq0 : q0 = c := hall q0 (by simp)
    subst hq0
    obtain ⟨e, he⟩ := hfail 0 (by simp)
    rw [Nat.add_zero] at he
    cases rest with
    | nil =>
      unfold runAttemptsAux
      rw [he]
      simpa using he.symm
    | cons r rs =>
      unfold runAttemptsAux
      rw [he]
      have ih2 := ih (i + 1) (by simp)
        (fun x hx => hall x (List.mem_cons_of_mem _ hx))
        (fun j hj => by
          obtain ⟨e2, he2⟩ := hfail (j + 1) (by simp at hj ⊢; omega)
          exact ⟨e2, by rw [show i + 1 + j = i + (j + 1) by omega]; exact he2⟩)
      rw [show i + ((q0 :: r :: rs).length - 1) = i + 1 + ((r :: rs).length - 1) by
        simp; omega]
      exact ih2

theorem buildRetryQualities_all (quality : String) :
    ∀ q ∈ buildRetryQualities quality, q = effQuality quality := by
  intro q hq
  unfold buildRetryQualities at hq
  unfold effQuality
  simp at hq
  exact hq

theorem buildRetryQualities_length (quality : String) :
    (buildRetryQualities quality).length = 6 := by
  unfold buildRetryQualities
  simp

/-- C1: the live attempt driver makes at most 6 provider calls, every call
uses the request's quality tier (no mid-sequence downgrade), a fixed
2-second sleep separates consecutive calls, the loop stops at the first
successful call and returns its result, and after 6 failures it returns the
last (sixth) error. -/
theorem attemptDriver_retry_policy (quality : String)
    (provider : Nat → String → Except String ImageResult) :
    countCalls (attemptDriver quality provider).1 ≤ 6 ∧
    (∀ i q, GenEvent.providerCall i q ∈ (attemptDriver quality provider).1 →
      q = effQuality quality) ∧
    Spaced (attemptDriver quality provider).1 ∧
    (∀ k, k < 6 →
      (∀ j, j < k → ∃ e, provider j (effQuality quality) = Except.error e) →
      (∃ r, provider k (effQuality quality) = Except.ok r) →
      (attemptDriver quality provider).2 = provider k (effQuality quality) ∧
      countCalls (attemptDriver quality provider).1 = k + 1) ∧
    ((∀ j, j < 6 → ∃ e, provider j (effQuality quality) = Except.error e) →
      (attemptDriver quality provider).2 = provider 5 (effQuality quality)) := by
  unfold attemptDriver
  have hall := buildRetryQualities_all quality
  have hlen := buildRetryQualities_length quality
  refine ⟨?_, ?_, ?_, ?_, ?_⟩
  · have := runAttemptsAux_countCalls provider (buildRetryQualities quality) 0
    rw [hlen] at this
    exact this
  · exact runAttemptsAux_quality provider (effQuality quality)
      (buildRetryQualities quality) 0 hall
  · exact runAttemptsAux_spaced provider (buildRetryQualities quality) 0
  · intro k hk hfail hok
    have := runAttemptsAux_first_success provider (effQuality quality)
      (buildRetryQualities quality) 0 k hall (by rw [hlen]; exact hk)
      (fun j hj => by simpa using hfail j hj)
      (by simpa using hok)
    simpa using this
  · intro hfail
    have := runAttemptsAux_all_fail provider (effQuality quality)
      (buildRetryQualities quality) 0 (by rw [← List.length_pos_iff_ne_nil]; omega)
      hall (fun j hj => by rw [hlen] at hj; simpa using hfail j hj)
    rw [hlen] at this
    simpa using this

/-- Witness for C1 at a concrete quality and provider: the driver stops at
the first success (attempt 1) after exactly two calls. -/
theorem attemptDriver_retry_policy_witness :
    countCalls (attemptDriver "4K" witFlakyProvider).1 ≤ 6 ∧
    (attemptDriver "4K" witFlakyProvider).2 = witFlakyProvider 1 "4K" ∧
    countCalls (attemptDriver "4K" witFlakyProvider).1 = 2 := by
  have h := attemptDriver_retry_policy "4K" witFlakyProvider
  have heq : effQuality "4K" = "4K" := by decide
  have h4 := h.2.2.2.1 1 (by omega)
    (fun j hj => by
      interval_cases j
      exact ⟨"boom", by rw [heq]; rfl⟩)
    ⟨⟨[7]⟩, by rw [heq]; rfl⟩
  exact ⟨h.1, by rw [← heq]; exact h4.1, h4.2⟩

/-! ### Endpoint construction (`gemini/client.go`: `buildGenerateURL`) -/

/-- C7 as stated is false: a Vertex-variant service whose base URL already
contains `":generateContent"` bypasses the projectID/location validation
entirely, so endpoint construction succeeds with both fields empty. -/
theorem buildGenerateURL_vertex_counterexample :
    normalizeServiceType "vertex" = serviceTypeVertex ∧
    buildGenerateURL
        ⟨"k", "https://proxy.example.com/v1/m:generateContent", "vertex",
          "", ""⟩ "m" =
      Except.ok (GenerateURL.direct
        "https://proxy.example.com/v1/m:generateContent" "k") := by
  constructor
  · decide
  · rfl

/-- C7 amended: endpoint construction is a pure function of the client's
five fields and the model, and a Vertex-variant service with a non-empty
API key whose base URL does not already contain `":generateContent"`
always fails with the invalid-backend-configuration error when projectID
or location is empty. -/
theorem buildGenerateURL_contract :
    (∀ (c1 c2 : Client) (m : String), c1.apiKey = c2.apiKey →
      c1.baseURL = c2.baseURL → c1.serviceType = c2.serviceType →
      c1.projectID = c2.projectID → c1.location = c2.location →
      buildGenerateURL c1 m = buildGenerateURL c2 m) ∧
    (∀ (c : Client) (model : String), trimSpace c.apiKey ≠ "" →
      containsSubstr (trimSpace c.baseURL) ":generateContent" = false →
      normalizeServiceType c.serviceType = serviceTypeVertex →
      (trimSpace c.projectID = "" ∨ trimSpace c.location = "") →
      buildGenerateURL c model = Except.error URLError.invalidBackendConfig) := by
  constructor
  · intro c1 c2 m h1 h2 h3 h4 h5
    cases c1
    cases c2
    simp only at h1 h2 h3 h4 h5
    rw [h1, h2, h3, h4, h5]
  · intro c model hkey hshort hvertex hmissing
    unfold buildGenerateURL
    rcases hmissing with hm | hm <;>
      simp [hkey, hshort, hvertex, hm, serviceTypeVertex]

/-- Witness for the amended C7: a concrete Vertex service with empty
projectID fails with the invalid-backend-configuration error. -/
theorem buildGenerateURL_contract_witness :
    buildGenerateURL ⟨"k", "", "vertex", "", "asia-east1"⟩ "m" =
      Except.error URLError.invalidBackendConfig :=
  buildGenerateURL_contract.2 ⟨"k", "", "vertex", "", "asia-east1"⟩ "m"
    (by decide) (by decide) (by decide) (Or.inl (by decide))

/-! ### Media-group cache (`bot/bot.go`) -/

theorem lookupGroup_cons_pos (kv : String × List CachedImage)
    (rest : MediaGroupCache) (gid : String) (h : (kv.1 == gid) = true) :
    lookupGroup (kv :: rest) gid = kv.2 := by
  simp [lookupGroup, List.find?_cons, h]

theorem lookupGroup_cons_neg (kv : String × List CachedImage)
    (rest : MediaGroupCache) (gid : String) (h : (kv.1 == gid) = false) :
    lookupGroup (kv :: rest) gid = lookupGroup rest gid := by
  simp [lookupGroup, List.find?_cons, h]

theorem lookupGroup_not_mem (cache : MediaGroupCache) (gid : String)
    (h : ∀ kv ∈ cache, kv.1 ≠ gid) : lookupGroup cache gid = [] := by
  unfold lookupGroup
  rw [List.find?_eq_none.mpr (fun kv hkv => by simpa using h kv hkv)]

theorem lookupGroup_cacheImage (cache : MediaGroupCache) (gid fid : String)
    (now : Int) :
    lookupGroup (cacheMediaGroupImage cache gid fid now) gid =
      lookupGroup cache gid ++ [⟨fid, now⟩] := by
  induction cache with
  | nil => simp [cacheMediaGroupImage, lookupGroup]
  | cons kv rest ih =>
    by_cases hk : (kv.1 == gid) = true
    · unfold cacheMediaGroupImage
      rw [if_pos (by simp [List.any_cons, hk])]
      rw [List.map_cons]
      have hhead : (if (kv.1 == gid) = true then
          (kv.1, kv.2 ++ [(⟨fid, now⟩ : CachedImage)]) else kv) =
          (kv.1, kv.2 ++ [⟨fid, now⟩]) := by simp [hk]
      rw [hhead, lookupGroup_cons_pos _ _ _ hk,
        lookupGroup_cons_pos _ _ _ (by simpa using hk)]
    · have hkf : (kv.1 == gid) = false := by simpa using hk
      have hx : cacheMediaGroupImage (kv :: rest) gid fid now =
          kv :: cacheMediaGroupImage rest gid fid now := by
        unfold cacheMediaGroupImage
        by_cases hrest : (rest.any fun kv => kv.1 == gid) = true
        · rw [if_pos (by simp [List.any_cons, hrest]), if_pos hrest,
            List.map_cons]
          simp [hkf]
        · rw [if_neg (by simp [List.any_cons, hrest, hkf]), if_neg hrest]
          simp
      rw [hx, lookupGroup_cons_neg _ _ _ hkf, lookupGroup_cons_neg _ _ _ hkf]
      exact ih

theorem cleanup_keeps_or_drops (cache : MediaGroupCache) (now : Int)
    (gid : String) (hnd : (cache.map Prod.fst).Nodup) :
    getMediaGroupImages (cleanupMediaGroupCache cache now) gid =
      (if groupExpired (lookupGroup cache gid) now then []
       else getMediaGroupImages cache gid) := by
  induction cache with
  | nil => simp [cleanupMediaGroupCache, getMediaGroupImages, lookupGroup,
      groupExpired]
  | cons kv rest ih =>
    have hnd2 : (rest.map Prod.fst).Nodup := (List.nodup_cons.mp hnd).2
    have hout : kv.1 ∉ rest.map Prod.fst := (List.nodup_cons.mp hnd).1
    by_cases hk : (kv.1 == gid) = true
    · have hgid : kv.1 = gid := by simpa using hk
      rw [lookupGroup_cons_pos _ _ _ hk]
      by_cases hexp : groupExpired kv.2 now = true
      · rw [if_pos hexp]
        unfold cleanupMediaGroupCache
        rw [List.filter_cons_of_neg (by simp [hexp])]
        unfold getMediaGroupImages
        rw [lookupGroup_not_mem]
        · rfl
        · intro kv2 hkv2 heq
          exact hout (hgid ▸ heq ▸ List.mem_map_of_mem Prod.fst
            (List.mem_filter.mp hkv2).1)
      · rw [if_neg hexp]
        unfold cleanupMediaGroupCache
        rw [List.filter_cons_of_pos (by simp [hexp])]
        unfold getMediaGroupImages
        rw [lookupGroup_cons_pos _ _ _ hk, lookupGroup_cons_pos _ _ _ hk]
    · have hkf : (kv.1 == gid) = false := by simpa using hk
      unfold cleanupMediaGroupCache
      by_cases hexp : groupExpired kv.2 now = true
      · rw [List.filter_cons_of_neg (by simp [hexp])]
        unfold getMediaGroupImages
        rw [lookupGroup_cons_neg _ _ _ hkf]
        have := ih hnd2
        unfold cleanupMediaGroupCache getMediaGroupImages at this
        exact this
      · rw [List.filter_cons_of_pos (by simp [hexp])]
        unfold getMediaGroupImages
        rw [lookupGroup_cons_neg _ _ _ hkf, lookupGroup_cons_neg _ _ _ hkf]
        have := ih hnd2
        unfold cleanupMediaGroupCache getMediaGroupImages at this
        exact this

/-- C9: batches accumulate in arrival order with no reordering or
deduplication; a snapshot is a copy of all cached file IDs in that order;
the sweep drops a whole batch exactly when its first (oldest, under
chronologically ordered entries) entry is older than 10 minutes, and a
snapshot after eviction is empty. -/
theorem mediaGroupCache_contract :
    (∀ (cache : MediaGroupCache) (gid fid : String) (now : Int),
      getMediaGroupImages (cacheMediaGroupImage cache gid fid now) gid =
        getMediaGroupImages cache gid ++ [fid]) ∧
    (∀ (cache : MediaGroupCache) (now : Int) (gid : String),
      (cache.map Prod.fst).Nodup →
      getMediaGroupImages (cleanupMediaGroupCache cache now) gid =
        (if groupExpired (lookupGroup cache gid) now then []
         else getMediaGroupImages cache gid)) ∧
    (∀ (first : CachedImage) (rest : List CachedImage) (now : Int),
      List.Pairwise (fun a b : CachedImage => a.timestamp ≤ b.timestamp)
        (first :: rest) →
      (groupExpired (first :: rest) now = true ↔
        now - first.timestamp > 600) ∧
      (∀ img ∈ first :: rest, first.timestamp ≤ img.timestamp)) := by
  refine ⟨?_, cleanup_keeps_or_drops, ?_⟩
  · intro cache gid fid now
    unfold getMediaGroupImages
    rw [lookupGroup_cacheImage]
    simp
  · intro first rest now hpair
    constructor
    · simp [groupExpired, evictionThresholdSeconds]
    · intro img hmem
      rcases List.mem_cons.mp hmem with rfl | hmem2
      · exact le_refl _
      · exact (List.pairwise_cons.mp hpair).1 img hmem2

/-- Witness for C9: three images cached under one batch ID in one burst
snapshot in arrival order; after the 10-minute threshold the sweep empties
the batch. -/
theorem mediaGroupCache_contract_witness :
    getMediaGroupImages
        (cacheMediaGroupImage
          (cacheMediaGroupImage (cacheMediaGroupImage [] "g" "f1" 0)
            "g" "f2" 0) "g" "f3" 0) "g" = ["f1", "f2", "f3"] ∧
    getMediaGroupImages
        (cleanupMediaGroupCache
          (cacheMediaGroupImage
            (cacheMediaGroupImage (cacheMediaGroupImage [] "g" "f1" 0)
              "g" "f2" 0) "g" "f3" 0) 601) "g" = [] := by
  constructor
  · exact (mediaGroupCache_contract.1
      (cacheMediaGroupImage (cacheMediaGroupImage [] "g" "f1" 0) "g" "f2" 0)
      "g" "f3" 0).trans (by decide)
  · exact (mediaGroupCache_contract.2.1
      (cacheMediaGroupImage
        (cacheMediaGroupImage (cacheMediaGroupImage [] "g" "f1" 0)
          "g" "f2" 0) "g" "f3" 0) 601 "g" (by decide)).trans (by decide)

/-! ### Failed-generation queue (`bot/retry.go`, `database/database.go`) -/

theorem markedTask_mem (q : List FailedGeneration) (t : FailedGeneration)
    (e : String) (now : Int) (ht : t ∈ q) :
    markedTask t e now ∈ markFailedGenerationRetry q t.id e now := by
  unfold markFailedGenerationRetry markedTask
  have := List.mem_map_of_mem (fun t0 => if t0.id = t.id then
    ({ t0 with
       retryCount := t0.retryCount + 1
       lastError := e
       lastRetryAt := some now } : FailedGeneration) else t0) ht
  simpa using this

theorem mark_mono (q : List FailedGeneration) (id : Nat) (e : String)
    (now : Int) :
    ∀ t0 ∈ q, ∃ t1 ∈ markFailedGenerationRetry q id e now,
      t1.id = t0.id ∧ t0.retryCount ≤ t1.retryCount := by
  intro t0 h0
  unfold markFailedGenerationRetry
  by_cases hid : t0.id = id
  · refine ⟨_, List.mem_map_of_mem _ h0, ?_⟩
    simp [hid]
  · refine ⟨_, List.mem_map_of_mem _ h0, ?_⟩
    simp [hid]

theorem delete_not_mem_id (q : List FailedGeneration) (id : Nat) :
    ∀ t1 ∈ deleteFailedGeneration q id, t1.id ≠ id := by
  intro t1 h
  unfold deleteFailedGeneration at h
  have := (List.mem_filter.mp h).2
  simpa using this

theorem retryStep_failure (q : List FailedGeneration) (t : FailedGeneration)
    (env : ReplayEnv) (now : Int) (p : FailedPayload) (e : String)
    (hp : t.payload = some p) (he : replayError p env = some e) :
    (retryOneFailedGeneration q t env now).1 =
      markFailedGenerationRetry q t.id e now ∧
    Effect.markRetry t.id e ∈ (retryOneFailedGeneration q t env now).2 ∧
    Effect.deleteTask t.id ∉ (retryOneFailedGeneration q t env now).2 := by
  unfold retryOneFailedGeneration
  rw [hp]
  unfold replayError pipelineError sendError at he
  rcases hrs : replayService p env with er | sc
  · rw [hrs] at he
    simp only [Option.some.injEq] at he
    subst he
    simp [hrs]
  · rw [hrs] at he
    dsimp only at he
    rcases hd : env.download with ed | imgs
    · rw [hd] at he
      simp only [Option.some.injEq] at he
      subst he
      simp [hrs, hd]
    · rw [hd] at he
      dsimp only at he
      rcases hg : env.generate with eg | res
      · rw [hg] at he
        simp only [Option.some.injEq] at he
        subst he
        simp [hrs, hd, hg]
      · rw [hg] at he
        dsimp only at he
        unfold sendRetrySuccessResult
        rcases hn : env.sendNotice with _ | en
        · rw [hn] at he
          dsimp only at he
          rcases hph : env.sendPhoto with _ | ep
          · rw [hph] at he
            dsimp only at he
            rcases hdc : env.sendDocument with _ | ed2
            · rw [hdc] at he
              simp at he
            · rw [hdc] at he
              simp only [Option.some.injEq] at he
              subst he
              simp [hrs, hd, hg, hn, hph, hdc]
          · rw [hph] at he
            simp only [Option.some.injEq] at he
            subst he
            simp [hrs, hd, hg, hn, hph]
        · rw [hn] at he
          simp only [Option.some.injEq] at he
          subst he
          simp [hrs, hd, hg, hn]

/-- C5: a task enqueued after an exhausted live request starts at
`retryCount = 0` with a null `lastRetryAt`; whenever a replay attempt of a
task with a parseable payload fails for any reason, the task stays queued
with `retryCount` incremented by one, `lastError` overwritten and
`lastRetryAt` stamped, and no task's `retryCount` ever decreases. -/
theorem failedQueue_failure_semantics :
    (∀ (q : List FailedGeneration) (nextID : Nat)
       (userID chatID replyToMessageID : Int) (p : FailedPayload)
       (le : String) (now : Int),
      enqueueFailedGeneration q nextID userID chatID replyToMessageID p le
          now =
        q ++ [⟨nextID, userID, chatID, replyToMessageID, some p,
          truncateError le, 0, now, none⟩]) ∧
    (∀ (q : List FailedGeneration) (t : FailedGeneration) (env : ReplayEnv)
       (now : Int) (p : FailedPayload) (e : String),
      t ∈ q → t.payload = some p → replayError p env = some e →
      markedTask t e now ∈ (retryOneFailedGeneration q t env now).1 ∧
      (markedTask t e now).retryCount = t.retryCount + 1 ∧
      (markedTask t e now).lastError = e ∧
      (markedTask t e now).lastRetryAt = some now ∧
      (∀ t0 ∈ q, ∃ t1 ∈ (retryOneFailedGeneration q t env now).1,
        t1.id = t0.id ∧ t0.retryCount ≤ t1.retryCount)) := by
  constructor
  · intro q nextID userID chatID replyToMessageID p le now
    rfl
  · intro q t env now p e ht hp he
    obtain ⟨hq, _, _⟩ := retryStep_failure q t env now p e hp he
    rw [hq]
    exact ⟨markedTask_mem q t e now ht, rfl, rfl, rfl,
      mark_mono q t.id e now⟩

/-- Witness for C5 (scenario C): the exhausted request is enqueued once
with `retryCount = 0`; one failing tick leaves it queued with
`retryCount = 1`. -/
theorem failedQueue_failure_semantics_witness :
    enqueueFailedGeneration [] 1 10 20 30 witPayload "boom" 0 = [witTask] ∧
    markedTask witTask "still boom" 5 ∈
      (retryOneFailedGeneration [witTask] witTask witFailEnv 5).1 ∧
    (markedTask witTask "still boom" 5).retryCount = 1 := by
  have h2 := failedQueue_failure_semantics.2 [witTask] witTask witFailEnv 5
    witPayload "still boom" (by simp) rfl rfl
  exact ⟨(failedQueue_failure_semantics.1 [] 1 10 20 30 witPayload "boom"
      0).trans (by decide),
    h2.1, h2.2.1.trans (by decide)⟩

/-- C6: when the single replay generation call succeeds, the result is
delivered to the task's original chat as replies referencing the original
message, and only after all three sends succeed is the task deleted (never
mutated in place: nothing with its id stays in the store); if delivery
fails the task is kept and marked instead. -/
theorem failedQueue_success_semantics (q : List FailedGeneration)
    (t : FailedGeneration) (env : ReplayEnv) (now : Int) (p : FailedPayload)
    (ht : t ∈ q) (hp : t.payload = some p)
    (hreply : 0 < t.replyToMessageID)
    (hpipe : pipelineError p env = none) :
    (sendError env = none →
      (retryOneFailedGeneration q t env now).2 =
        [Effect.sendMsg MsgKind.retryNotice t.chatID
           (some t.replyToMessageID),
         Effect.sendMsg MsgKind.retryPhoto t.chatID
           (some t.replyToMessageID),
         Effect.sendMsg MsgKind.retryDocument t.chatID
           (some t.replyToMessageID),
         Effect.deleteTask t.id] ∧
      (retryOneFailedGeneration q t env now).1 =
        deleteFailedGeneration q t.id ∧
      (∀ t1 ∈ (retryOneFailedGeneration q t env now).1, t1.id ≠ t.id)) ∧
    (∀ e, sendError env = some e →
      Effect.deleteTask t.id ∉ (retryOneFailedGeneration q t env now).2 ∧
      markedTask t e now ∈ (retryOneFailedGeneration q t env now).1) := by
  unfold retryOneFailedGeneration
  rw [hp]
  unfold pipelineError at hpipe
  rcases hrs : replayService p env with er | sc
  · rw [hrs] at hpipe; simp at hpipe
  rw [hrs] at hpipe
  dsimp only at hpipe
  rcases hd : env.download with ed | imgs
  · rw [hd] at hpipe; simp at hpipe
  rw [hd] at hpipe
  dsimp only at hpipe
  rcases hg : env.generate with eg | res
  · rw [hg] at hpipe; simp at hpipe
  have hrt : noticeReplyTo t = some t.replyToMessageID := by
    unfold noticeReplyTo
    rw [if_pos hreply]
  unfold sendRetrySuccessResult sendError
  rcases hn : env.sendNotice with _ | en
  · rcases hph : env.sendPhoto with _ | ep
    · rcases hdc : env.sendDocument with _ | ed2
      · constructor
        · intro _
          refine ⟨?_, ?_, ?_⟩
          · simp [hrs, hd, hg, hn, hph, hdc, hrt]
          · simp [hrs, hd, hg, hn, hph, hdc]
          · intro t1 h1
            dsimp only at h1
            rw [hrs] at h1
            dsimp only at h1
            exact delete_not_mem_id q t.id t1 h1
        · intro e hse
          simp at hse
      · constructor
        · intro hse
          simp at hse
        · intro e hse
          simp only [Option.some.injEq] at hse
          subst hse
          constructor
          · simp [hrs, hd, hg, hn, hph, hdc]
          · simp only [hrs, hd, hg, hn, hph, hdc]
            exact markedTask_mem q t _ now ht
    · constructor
      · intro hse
        simp at hse
      · intro e hse
        simp only [Option.some.injEq] at hse
        subst hse
        constructor
        · simp [hrs, hd, hg, hn, hph]
        · simp only [hrs, hd, hg, hn, hph]
          exact markedTask_mem q t _ now ht
  · constructor
    · intro hse
      simp at hse
    · intro e hse
      simp only [Option.some.injEq] at hse
      subst hse
      constructor
      · simp [hrs, hd, hg, hn]
      · simp only [hrs, hd, hg, hn]
        exact markedTask_mem q t _ now ht

/-- Witness for C6 (scenario D): a succeeding replay sends the notice, the
photo and the document to the original chat as replies to the original
message, then deletes the task, leaving the store empty. -/
theorem failedQueue_success_semantics_witness :
    (retryOneFailedGeneration [witTask] witTask witOkEnv 5).2 =
      [Effect.sendMsg MsgKind.retryNotice 20 (some 30),
       Effect.sendMsg MsgKind.retryPhoto 20 (some 30),
       Effect.sendMsg MsgKind.retryDocument 20 (some 30),
       Effect.deleteTask 1] ∧
    (retryOneFailedGeneration [witTask] witTask witOkEnv 5).1 = [] := by
  have h := failedQueue_success_semantics [witTask] witTask witOkEnv 5
    witPayload (by simp) rfl (by decide) rfl
  obtain ⟨h1, h2, _⟩ := h.1 rfl
  exact ⟨h1.trans (by decide), h2.trans (by decide)⟩

/-! ### Per-user backend services (`database/database.go`) -/

theorem countP_split {α : Type} (l : List α) (p q : α → Bool) :
    l.countP p = l.countP (fun a => p a && q a) +
      l.countP (fun a => p a && !q a) := by
  induction l with
  | nil => rfl
  | cons a l ih =>
    simp only [List.countP_cons]
    by_cases hp : p a <;> by_cases hq : q a <;> simp [hp, hq] <;> omega

theorem countP_congr_mem {α : Type} (l : List α) (p q : α → Bool)
    (h : ∀ a ∈ l, p a = q a) : l.countP p = l.countP q := by
  induction l with
  | nil => rfl
  | cons a l ih =>
    simp only [List.countP_cons]
    rw [h a (by simp), ih (fun x hx => h x (List.mem_cons_of_mem _ hx))]

theorem userCount_map_pres (l : List UserService)
    (f : UserService → UserService)
    (hf : ∀ s ∈ l, (f s).userID = s.userID) (u2 : Int) :
    userCount (l.map f) u2 = userCount l u2 := by
  unfold userCount
  rw [List.countP_map]
  exact countP_congr_mem l _ _ (fun s hs => by
    simp only [Function.comp_apply, hf s hs])

theorem defaultCount_map_pres (l : List UserService)
    (f : UserService → UserService) (u2 : Int)
    (hfu : ∀ s ∈ l, s.userID = u2 → f s = s)
    (hf : ∀ s ∈ l, (f s).userID = s.userID) :
    defaultCount (l.map f) u2 = defaultCount l u2 := by
  unfold defaultCount
  rw [List.countP_map]
  apply countP_congr_mem
  intro s hs
  by_cases hsu : s.userID = u2
  · rw [Function.comp_apply, hfu s hs hsu]
  · have h2 := hf s hs
    simp only [Function.comp_apply]
    have hx : ((f s).userID == u2) = false := by
      rw [h2]; simpa using hsu
    have hy : (s.userID == u2) = false := by simpa using hsu
    rw [hx, hy]
    simp

theorem ids_map_pres (l : List UserService) (f : UserService → UserService)
    (hf : ∀ s ∈ l, (f s).id = s.id) :
    (l.map f).map UserService.id = l.map UserService.id := by
  rw [List.map_map]
  exact List.map_congr_left (fun s hs => hf s hs)

theorem defaultCount_clearDefaults_self (l : List UserService) (u : Int) :
    defaultCount (clearDefaults l u) u = 0 := by
  unfold defaultCount clearDefaults
  rw [List.countP_map, List.countP_eq_zero]
  intro s _
  by_cases hs : s.userID = u <;> simp [hs]

theorem clearDefaults_pres (l : List UserService) (u u2 : Int)
    (hne : u2 ≠ u) :
    defaultCount (clearDefaults l u) u2 = defaultCount l u2 := by
  unfold clearDefaults
  apply defaultCount_map_pres
  · intro s _ hsu
    rw [if_neg (by rw [hsu]; exact hne)]
  · intro s _
    by_cases hs : s.userID = u <;> simp [hs]

theorem userCount_clearDefaults (l : List UserService) (u u2 : Int) :
    userCount (clearDefaults l u) u2 = userCount l u2 := by
  unfold clearDefaults
  apply userCount_map_pres
  intro s _
  by_cases hs : s.userID = u <;> simp [hs]

theorem userCount_setDefaultByID (l : List UserService) (sid : Nat)
    (u2 : Int) : userCount (setDefaultByID l sid) u2 = userCount l u2 := by
  unfold setDefaultByID
  apply userCount_map_pres
  intro s _
  by_cases hs : s.id = sid <;> simp [hs]

theorem ids_clearDefaults (l : List UserService) (u : Int) :
    (clearDefaults l u).map UserService.id = l.map UserService.id := by
  unfold clearDefaults
  apply ids_map_pres
  intro s _
  by_cases hs : s.userID = u <;> simp [hs]

theorem ids_setDefaultByID (l : List UserService) (sid : Nat) :
    (setDefaultByID l sid).map UserService.id = l.map UserService.id := by
  unfold setDefaultByID
  apply ids_map_pres
  intro s _
  by_cases hs : s.id = sid <;> simp [hs]

theorem setDefaultByID_no_id (l : List UserService) (sid : Nat)
    (h : ∀ s ∈ l, s.id ≠ sid) : setDefaultByID l sid = l := by
  unfold setDefaultByID
  have h2 : ∀ s ∈ l, (if s.id = sid then
      ({ s with isDefault := true } : UserService) else s) = s :=
    fun s hs => by rw [if_neg (h s hs)]
  rw [List.map_congr_left h2]
  exact List.map_id' l

theorem countP_user_id_unique (l : List UserService) (u : Int) (sid : Nat)
    (hnd : (l.map UserService.id).Nodup)
    (hex : ∃ s ∈ l, s.userID = u ∧ s.id = sid) :
    l.countP (fun s => s.userID == u && s.id == sid) = 1 := by
  induction l with
  | nil => simp at hex
  | cons a l ih =>
    obtain ⟨s0, hs0, hu0, hid0⟩ := hex
    have hnd2 : (l.map UserService.id).Nodup := (List.nodup_cons.mp
      (by simpa using hnd)).2
    have hout : a.id ∉ l.map UserService.id := (List.nodup_cons.mp
      (by simpa using hnd)).1
    rw [List.countP_cons]
    rcases List.mem_cons.mp hs0 with rfl | hmem
    · have htail : l.countP (fun s => s.userID == u && s.id == sid) = 0 := by
        rw [List.countP_eq_zero]
        intro b hb hpb
        simp only [Bool.and_eq_true, beq_iff_eq] at hpb
        exact hout (hid0 ▸ hpb.2 ▸ List.mem_map_of_mem UserService.id hb)
      simp [htail, hu0, hid0]
    · have hida : a.id ≠ sid := by
        intro hbad
        exact hout (hbad ▸ hid0 ▸ List.mem_map_of_mem UserService.id hmem)
      rw [ih hnd2 ⟨s0, hmem, hu0, hid0⟩]
      simp [hida]

theorem latestStep_foldl_some (l : List UserService) :
    ∀ b : UserService, ∃ c, l.foldl latestStep (some b) = some c := by
  induction l with
  | nil => intro b; exact ⟨b, rfl⟩
  | cons s l ih =>
    intro b
    simp only [List.foldl_cons]
    by_cases hlt : b.createdAt < s.createdAt
    · simpa [latestStep, hlt] using ih s
    · simpa [latestStep, hlt] using ih b

theorem latestStep_foldl_ge (l : List UserService) :
    ∀ (b c : UserService), l.foldl latestStep (some b) = some c →
      b.createdAt ≤ c.createdAt := by
  induction l with
  | nil =>
    intro b c h
    simp only [List.foldl_nil, Option.some.injEq] at h
    exact h ▸ le_refl _
  | cons s l ih =>
    intro b c h
    simp only [List.foldl_cons] at h
    by_cases hlt : b.createdAt < s.createdAt
    · rw [show latestStep (some b) s = some s by simp [latestStep, hlt]] at h
      exact le_of_lt (lt_of_lt_of_le hlt (ih _ _ h))
    · rw [show latestStep (some b) s = some b by simp [latestStep, hlt]] at h
      exact ih _ _ h

theorem latestStep_foldl_mem (l : List UserService) :
    ∀ (acc : Option UserService) (c : UserService),
      l.foldl latestStep acc = some c → acc = some c ∨ c ∈ l := by
  induction l with
  | nil => intro acc c h; exact Or.inl h
  | cons s l ih =>
    intro acc c h
    simp only [List.foldl_cons] at h
    rcases ih _ _ h with hacc | hmem
    · cases acc with
      | none =>
        rw [show latestStep none s = some s from rfl] at hacc
        right
        simp only [Option.some.injEq] at hacc
        rw [← hacc]
        exact List.mem_cons_self _ _
      | some b =>
        by_cases hlt : b.createdAt < s.createdAt
        · rw [show latestStep (some b) s = some s by simp [latestStep, hlt]]
            at hacc
          right
          simp only [Option.some.injEq] at hacc
          rw [← hacc]
          exact List.mem_cons_self _ _
        · rw [show latestStep (some b) s = some b by simp [latestStep, hlt]]
            at hacc
          exact Or.inl hacc
    · exact Or.inr (List.mem_cons_of_mem _ hmem)

theorem latestStep_foldl_ub (l : List UserService) :
    ∀ (acc : Option UserService) (c : UserService),
      l.foldl latestStep acc = some c →
      ∀ s ∈ l, s.createdAt ≤ c.createdAt := by
  induction l with
  | nil => intro acc c _ s hs; simp at hs
  | cons a l ih =>
    intro acc c h s hs
    simp only [List.foldl_cons] at h
    rcases List.mem_cons.mp hs with rfl | hmem
    · cases acc with
      | none =>
        rw [show latestStep none s = some s from rfl] at h
        exact latestStep_foldl_ge l _ _ h
      | some b =>
        by_cases hlt : b.createdAt < s.createdAt
        · rw [show latestStep (some b) s = some s by simp [latestStep, hlt]]
            at h
          exact latestStep_foldl_ge l _ _ h
        · rw [show latestStep (some b) s = some b by simp [latestStep, hlt]]
            at h
          exact le_trans (not_lt.mp hlt) (latestStep_foldl_ge l _ _ h)
    · exact ih _ _ h s hmem

theorem latestService_spec (l : List UserService) (c : UserService)
    (h : latestService l = some c) :
    c ∈ l ∧ ∀ s ∈ l, s.createdAt ≤ c.createdAt := by
  unfold latestService at h
  refine ⟨?_, latestStep_foldl_ub l none c h⟩
  rcases latestStep_foldl_mem l none c h with hacc | hmem
  · cases hacc
  · exact hmem

theorem latestService_none (l : List UserService)
    (h : latestService l = none) : l = [] := by
  cases l with
  | nil => rfl
  | cons s rest =>
    unfold latestService at h
    rw [List.foldl_cons, show latestStep none s = some s from rfl] at h
    obtain ⟨c, hc⟩ := latestStep_foldl_some rest s
    rw [hc] at h
    cases h

theorem userCount_append (l1 l2 : List UserService) (u : Int) :
    userCount (l1 ++ l2) u = userCount l1 u + userCount l2 u := by
  unfold userCount
  rw [List.countP_append]

theorem defaultCount_append (l1 l2 : List UserService) (u : Int) :
    defaultCount (l1 ++ l2) u = defaultCount l1 u + defaultCount l2 u := by
  unfold defaultCount
  rw [List.countP_append]

theorem defaultCount_le_userCount (l : List UserService) (u : Int) :
    defaultCount l u ≤ userCount l u := by
  unfold defaultCount userCount
  apply List.countP_mono_left
  intro s _ hs
  simp only [Bool.and_eq_true] at hs
  exact hs.1

theorem setDefaultByID_append (l1 l2 : List UserService) (sid : Nat) :
    setDefaultByID (l1 ++ l2) sid =
      setDefaultByID l1 sid ++ setDefaultByID l2 sid := by
  unfold setDefaultByID
  rw [List.map_append]

theorem addUserService_services_default (st : ServiceStore) (u : Int) :
    (addUserService st u true).services =
      clearDefaults st.services u ++ [⟨st.nextID, u, true, st.nextTime⟩] := by
  unfold addUserService
  simp

theorem addUserService_services_promote (st : ServiceStore) (u : Int)
    (hcount :
      userCount (st.services ++ [⟨st.nextID, u, false, st.nextTime⟩]) u = 1) :
    (addUserService st u false).services =
      setDefaultByID (st.services ++ [⟨st.nextID, u, false, st.nextTime⟩])
        st.nextID := by
  unfold addUserService
  simp [hcount]

theorem addUserService_services_plain (st : ServiceStore) (u : Int)
    (hcount :
      userCount (st.services ++ [⟨st.nextID, u, false, st.nextTime⟩]) u ≠ 1) :
    (addUserService st u false).services =
      st.services ++ [⟨st.nextID, u, false, st.nextTime⟩] := by
  unfold addUserService
  simp [hcount]

theorem nodup_ids_append_new (l : List UserService) (new : UserService)
    (hnd : (l.map UserService.id).Nodup)
    (hnoid : ∀ s ∈ l, s.id ≠ new.id) :
    ((l ++ [new]).map UserService.id).Nodup := by
  rw [List.map_append, List.nodup_append]
  refine ⟨hnd, by simp, ?_⟩
  intro a ha hb
  simp only [List.map_cons, List.map_nil, List.mem_singleton] at hb
  obtain ⟨s2, hs2, hid2⟩ := List.mem_map.mp ha
  exact hnoid s2 hs2 (by rw [hid2, hb])

theorem idBound_append_new (l : List UserService) (new : UserService)
    (bound : Nat) (hb : ∀ s ∈ l, s.id < bound) (hn : new.id < bound) :
    ∀ s ∈ l ++ [new], s.id < bound := by
  intro s hs
  rcases List.mem_append.mp hs with h1 | h1
  · exact hb s h1
  · simp only [List.mem_singleton] at h1
    rw [h1]
    exact hn

theorem wf_add (st : ServiceStore) (u : Int) (d : Bool) (h : StoreWF st) :
    StoreWF (addUserService st u d) := by
  obtain ⟨hidb, hnd, hdef⟩ := h
  have hnoid : ∀ s ∈ st.services, s.id ≠ st.nextID :=
    fun s hs => Nat.ne_of_lt (hidb s hs)
  cases d with
  | true =>
    have hS : (addUserService st u true).services =
        clearDefaults st.services u ++ [⟨st.nextID, u, true, st.nextTime⟩] :=
      addUserService_services_default st u
    have hnoid2 : ∀ s ∈ clearDefaults st.services u, s.id ≠ st.nextID := by
      intro s hs
      have : s.id ∈ (clearDefaults st.services u).map UserService.id :=
        List.mem_map_of_mem _ hs
      rw [ids_clearDefaults] at this
      obtain ⟨s2, hs2, hid2⟩ := List.mem_map.mp this
      rw [← hid2]
      exact hnoid s2 hs2
    refine ⟨?_, ?_, ?_⟩
    · show ∀ s ∈ (addUserService st u true).services, s.id < st.nextID + 1
      rw [hS]
      apply idBound_append_new
      · intro s hs
        have : s.id ∈ (clearDefaults st.services u).map UserService.id :=
          List.mem_map_of_mem _ hs
        rw [ids_clearDefaults] at this
        obtain ⟨s2, hs2, hid2⟩ := List.mem_map.mp this
        rw [← hid2]
        exact Nat.lt_succ_of_lt (hidb s2 hs2)
      · exact Nat.lt_succ_self _
    · show (((addUserService st u true).services).map UserService.id).Nodup
      rw [hS]
      apply nodup_ids_append_new
      · rw [ids_clearDefaults]
        exact hnd
      · exact hnoid2
    · intro u2
      show defaultCount (addUserService st u true).services u2 ≤ 1 ∧
        (0 < userCount (addUserService st u true).services u2 →
          defaultCount (addUserService st u true).services u2 = 1)
      rw [hS, defaultCount_append, userCount_append]
      by_cases hu2 : u2 = u
      · subst hu2
        have h1 : defaultCount [(⟨st.nextID, u2, true, st.nextTime⟩ :
            UserService)] u2 = 1 := by simp [defaultCount]
        have h2 : defaultCount (clearDefaults st.services u2) u2 = 0 :=
          defaultCount_clearDefaults_self st.services u2
        rw [h1, h2]
        refine ⟨le_refl _, fun _ => rfl⟩
      · have h1 : defaultCount [(⟨st.nextID, u, true, st.nextTime⟩ :
            UserService)] u2 = 0 := by
          simp [defaultCount, Ne.symm hu2]
        have h2 : userCount [(⟨st.nextID, u, true, st.nextTime⟩ :
            UserService)] u2 = 0 := by
          simp [userCount, Ne.symm hu2]
        rw [h1, h2, clearDefaults_pres st.services u u2 hu2,
          userCount_clearDefaults]
        have := hdef u2
        constructor
        · omega
        · intro hpos
          have : 0 < userCount st.services u2 := by omega
          have h3 := (hdef u2).2 this
          omega
  | false =>
    by_cases hcount :
        userCount (st.services ++ [⟨st.nextID, u, false, st.nextTime⟩]) u = 1
    · have hS : (addUserService st u false).services =
          st.services ++ [⟨st.nextID, u, true, st.nextTime⟩] := by
        rw [addUserService_services_promote st u hcount,
          setDefaultByID_append,
          setDefaultByID_no_id st.services st.nextID hnoid]
        simp [setDefaultByID]
      have huc0 : userCount st.services u = 0 := by
        rw [userCount_append] at hcount
        have hone : userCount [(⟨st.nextID, u, false, st.nextTime⟩ :
            UserService)] u = 1 := by simp [userCount]
        omega
      refine ⟨?_, ?_, ?_⟩
      · show ∀ s ∈ (addUserService st u false).services, s.id < st.nextID + 1
        rw [hS]
        apply idBound_append_new
        · exact fun s hs => Nat.lt_succ_of_lt (hidb s hs)
        · exact Nat.lt_succ_self _
      · show (((addUserService st u false).services).map UserService.id).Nodup
        rw [hS]
        exact nodup_ids_append_new st.services _ hnd hnoid
      · intro u2
        show defaultCount (addUserService st u false).services u2 ≤ 1 ∧
          (0 < userCount (addUserService st u false).services u2 →
            defaultCount (addUserService st u false).services u2 = 1)
        rw [hS, defaultCount_append, userCount_append]
        by_cases hu2 : u2 = u
        · subst hu2
          have h1 : defaultCount [(⟨st.nextID, u2, true, st.nextTime⟩ :
              UserService)] u2 = 1 := by simp [defaultCount]
          have h2 : defaultCount st.services u2 = 0 := by
            have := defaultCount_le_userCount st.services u2
            omega
          rw [h1, h2]
          exact ⟨le_refl _, fun _ => rfl⟩
        · have h1 : defaultCount [(⟨st.nextID, u, true, st.nextTime⟩ :
              UserService)] u2 = 0 := by
            simp [defaultCount, Ne.symm hu2]
          have h2 : userCount [(⟨st.nextID, u, true, st.nextTime⟩ :
              UserService)] u2 = 0 := by
            simp [userCount, Ne.symm hu2]
          rw [h1, h2]
          have := hdef u2
          constructor
          · omega
          · intro hpos
            have hpos2 : 0 < userCount st.services u2 := by omega
            have h3 := (hdef u2).2 hpos2
            omega
    · have hS : (addUserService st u false).services =
          st.services ++ [⟨st.nextID, u, false, st.nextTime⟩] :=
        addUserService_services_plain st u hcount
      have hucpos : 0 < userCount st.services u := by
        rw [userCount_append] at hcount
        have hone : userCount [(⟨st.nextID, u, false, st.nextTime⟩ :
            UserService)] u = 1 := by simp [userCount]
        omega
      refine ⟨?_, ?_, ?_⟩
      · show ∀ s ∈ (addUserService st u false).services, s.id < st.nextID + 1
        rw [hS]
        apply idBound_append_new
        · exact fun s hs => Nat.lt_succ_of_lt (hidb s hs)
        · exact Nat.lt_succ_self _
      · show (((addUserService st u false).services).map UserService.id).Nodup
        rw [hS]
        exact nodup_ids_append_new st.services _ hnd hnoid
      · intro u2
        show defaultCount (addUserService st u false).services u2 ≤ 1 ∧
          (0 < userCount (addUserService st u false).services u2 →
            defaultCount (addUserService st u false).services u2 = 1)
        rw [hS, defaultCount_append, userCount_append]
        have h1 : defaultCount [(⟨st.nextID, u, false, st.nextTime⟩ :
            UserService)] u2 = 0 := by simp [defaultCount]
        rw [h1]
        by_cases hu2 : u2 = u
        · subst hu2
          have h3 := (hdef u2).2 hucpos
          constructor
          · omega
          · intro _; omega
        · have h2 : userCount [(⟨st.nextID, u, false, st.nextTime⟩ :
              UserService)] u2 = 0 := by
            simp [userCount, Ne.symm hu2]
          rw [h2]
          have := hdef u2
          constructor
          · omega
          · intro hpos
            have hpos2 : 0 < userCount st.services u2 := by omega
            have h3 := (hdef u2).2 hpos2
            omega

theorem countP_and_unique {α : Type} (l : List α) (p q : α → Bool)
    (svc : α) (hq1 : l.countP q = 1)
    (huniq : ∀ a ∈ l, q a = true → a = svc) :
    l.countP (fun a => p a && q a) = if p svc then 1 else 0 := by
  have hfil : l.filter q = [svc] := by
    have hlen : (l.filter q).length = 1 := by
      rw [← List.countP_eq_length_filter]
      exact hq1
    obtain ⟨a, ha⟩ := List.length_eq_one.mp hlen
    have hmem2 : a ∈ l.filter q := by rw [ha]; simp
    have hprops := List.mem_filter.mp hmem2
    rw [ha, huniq a hprops.1 hprops.2]
  calc l.countP (fun a => p a && q a) = (l.filter q).countP p := by
        rw [List.countP_filter]
    _ = [svc].countP p := by rw [hfil]
    _ = if p svc then 1 else 0 := by simp [List.countP_cons]

theorem defaultCount_setDefaultUser (l : List UserService) (u : Int)
    (sid : Nat) :
    defaultCount (l.map (fun s => if s.userID = u then
      { s with isDefault := decide (s.id = sid) } else s)) u =
      l.countP (fun s => s.userID == u && s.id == sid) := by
  unfold defaultCount
  rw [List.countP_map]
  apply countP_congr_mem
  intro s _
  by_cases hsu : s.userID = u
  · by_cases hsid : s.id = sid <;> simp [hsu, hsid]
  · have hb : (s.userID == u) = false := by simpa using hsu
    simp [hsu, hb]

theorem defaultCount_setDefaultByID_unique (l : List UserService)
    (sid : Nat) (u : Int) (hnd : (l.map UserService.id).Nodup) :
    ∀ svc2 ∈ l, svc2.id = sid → svc2.userID = u → defaultCount l u = 0 →
      defaultCount (setDefaultByID l sid) u = 1 := by
  induction l with
  | nil => intro svc2 hmem; simp at hmem
  | cons a rest ih =>
    intro svc2 hmem hid hu h0
    have hnd2 : (rest.map UserService.id).Nodup := (List.nodup_cons.mp
      (by simpa using hnd)).2
    have hout : a.id ∉ rest.map UserService.id := (List.nodup_cons.mp
      (by simpa using hnd)).1
    rw [show setDefaultByID (a :: rest) sid =
      (if a.id = sid then { a with isDefault := true } else a) ::
        setDefaultByID rest sid from rfl]
    unfold defaultCount at h0 ⊢
    rw [List.countP_cons] at h0 ⊢
    rcases List.mem_cons.mp hmem with rfl | hmem2
    · have hrest : setDefaultByID rest sid = rest := by
        apply setDefaultByID_no_id
        intro s hs hbad
        apply hout
        rw [hid, ← hbad]
        exact List.mem_map_of_mem UserService.id hs
      rw [hrest, if_pos hid]
      have hr0 : rest.countP (fun s => s.userID == u && s.isDefault) = 0 :=
        Nat.eq_zero_of_add_eq_zero_right h0
      simp [hr0, hu]
    · have hida : a.id ≠ sid := by
        intro hbad
        exact hout (hbad ▸ hid ▸ List.mem_map_of_mem UserService.id hmem2)
      rw [if_neg hida]
      have hr := ih hnd2 svc2 hmem2 hid hu
        (show defaultCount rest u = 0 from
          Nat.eq_zero_of_add_eq_zero_right h0)
      unfold defaultCount at hr
      rw [hr]
      have ha0 : (if (a.userID == u && a.isDefault) = true then 1 else 0) =
          0 := Nat.eq_zero_of_add_eq_zero_left h0
      omega

theorem idBound_of_ids_eq (l1 l2 : List UserService) (bound : Nat)
    (hids : l1.map UserService.id = l2.map UserService.id)
    (hb : ∀ s ∈ l2, s.id < bound) : ∀ s ∈ l1, s.id < bound := by
  intro s hs
  have hmem : s.id ∈ l1.map UserService.id := List.mem_map_of_mem _ hs
  rw [hids] at hmem
  obtain ⟨s2, h2, hid⟩ := List.mem_map.mp hmem
  rw [← hid]
  exact hb s2 h2

theorem wf_setDefault (st : ServiceStore) (u : Int) (sid : Nat)
    (h : StoreWF st) : StoreWF (setDefaultUserService st u sid) := by
  obtain ⟨hidb, hnd, hdef⟩ := h
  unfold setDefaultUserService
  by_cases hany :
      (st.services.any (fun s => s.userID == u && s.id == sid)) = true
  · rw [if_pos hany]
    obtain ⟨svc, hsmem, hsp⟩ := List.any_eq_true.mp hany
    simp only [Bool.and_eq_true, beq_iff_eq] at hsp
    obtain ⟨hsu, hsi⟩ := hsp
    have hids : ((st.services.map (fun s => if s.userID = u then
        { s with isDefault := decide (s.id = sid) } else s)).map
          UserService.id) = st.services.map UserService.id := by
      apply ids_map_pres
      intro s _
      by_cases hs : s.userID = u <;> simp [hs]
    refine ⟨?_, ?_, ?_⟩
    · show ∀ s ∈ (st.services.map (fun s => if s.userID = u then
        { s with isDefault := decide (s.id = sid) } else s)),
          s.id < st.nextID
      exact idBound_of_ids_eq _ st.services st.nextID hids hidb
    · show ((st.services.map (fun s => if s.userID = u then
        { s with isDefault := decide (s.id = sid) } else s)).map
          UserService.id).Nodup
      rw [hids]
      exact hnd
    · intro u2
      by_cases hu2 : u2 = u
      · subst hu2
        have h1 := defaultCount_setDefaultUser st.services u2 sid
        have h2 := countP_user_id_unique st.services u2 sid hnd
          ⟨svc, hsmem, hsu, hsi⟩
        have h3 : userCount (st.services.map (fun s => if s.userID = u2 then
            { s with isDefault := decide (s.id = sid) } else s)) u2 =
            userCount st.services u2 := by
          apply userCount_map_pres
          intro s _
          by_cases hs : s.userID = u2 <;> simp [hs]
        constructor
        · show defaultCount _ u2 ≤ 1
          rw [h1, h2]
        · intro _
          show defaultCount _ u2 = 1
          rw [h1, h2]
      · have h1 : defaultCount (st.services.map (fun s =>
            if s.userID = u then
              { s with isDefault := decide (s.id = sid) } else s)) u2 =
            defaultCount st.services u2 := by
          apply defaultCount_map_pres
          · intro s _ hsu2
            rw [if_neg (by rw [hsu2]; exact Ne.symm (fun h => hu2 (Eq.symm h)))]
          · intro s _
            by_cases hs : s.userID = u <;> simp [hs]
        have h3 : userCount (st.services.map (fun s => if s.userID = u then
            { s with isDefault := decide (s.id = sid) } else s)) u2 =
            userCount st.services u2 := by
          apply userCount_map_pres
          intro s _
          by_cases hs : s.userID = u <;> simp [hs]
        rw [show (({ st with
          services := st.services.map (fun s => if s.userID = u then
            { s with isDefault := decide (s.id = sid) } else s) } :
              ServiceStore)).services =
          st.services.map (fun s => if s.userID = u then
            { s with isDefault := decide (s.id = sid) } else s) from rfl,
          h1, h3]
        exact hdef u2
  · rw [if_neg hany]
    exact ⟨hidb, hnd, hdef⟩

theorem wf_delete (st : ServiceStore) (u : Int) (sid : Nat)
    (h : StoreWF st) : StoreWF (deleteUserService st u sid) := by
  obtain ⟨hidb, hnd, hdef⟩ := h
  unfold deleteUserService
  rcases hf : st.services.find? (fun s => s.userID == u && s.id == sid) with
    _ | svc
  · rw [hf]
    exact ⟨hidb, hnd, hdef⟩
  · rw [hf]
    dsimp only
    have hsvc_mem : svc ∈ st.services := List.mem_of_find?_eq_some hf
    have hsp := List.find?_some hf
    simp only [Bool.and_eq_true, beq_iff_eq] at hsp
    obtain ⟨hsu, hsi⟩ := hsp
    have huniq : ∀ a ∈ st.services,
        (a.userID == u && a.id == sid) = true → a = svc := by
      intro a ha hpa
      simp only [Bool.and_eq_true, beq_iff_eq] at hpa
      exact List.inj_on_of_nodup_map hnd ha hsvc_mem (by rw [hpa.2, hsi])
    have hm1 : st.services.countP (fun s => s.userID == u && s.id == sid) =
        1 := countP_user_id_unique st.services u sid hnd
      ⟨svc, hsvc_mem, hsu, hsi⟩
    set rem := st.services.filter
      (fun s => !(s.userID == u && s.id == sid)) with hremdef
    have hrem_count : ∀ p2 : UserService → Bool,
        st.services.countP p2 = (if p2 svc then 1 else 0) + rem.countP p2 := by
      intro p2
      have hremc : rem.countP p2 = st.services.countP
          (fun s => p2 s && !(s.userID == u && s.id == sid)) := by
        rw [hremdef, List.countP_filter]
      have hsplit := countP_split st.services p2
        (fun s => s.userID == u && s.id == sid)
      have hand := countP_and_unique st.services p2
        (fun s => s.userID == u && s.id == sid) svc hm1 huniq
      rw [hremc, hsplit, hand]
    have hrem_user : ∀ u2 : Int, userCount st.services u2 =
        (if (svc.userID == u2 : Bool) then 1 else 0) + userCount rem u2 :=
      fun u2 => hrem_count (fun s => s.userID == u2)
    have hrem_def : ∀ u2 : Int, defaultCount st.services u2 =
        (if (svc.userID == u2 && svc.isDefault : Bool) then 1 else 0) +
          defaultCount rem u2 :=
      fun u2 => hrem_count (fun s => s.userID == u2 && s.isDefault)
    have hnd_rem : (rem.map UserService.id).Nodup :=
      ((List.filter_sublist _).map UserService.id).nodup hnd
    have hidb_rem : ∀ s ∈ rem, s.id < st.nextID :=
      fun s hs => hidb s (List.mem_of_mem_filter hs)
    by_cases hd : svc.isDefault = true
    · rw [if_pos hd]
      have hucpos : 0 < userCount st.services u := by
        show 0 < st.services.countP (fun s => s.userID == u)
        rw [List.countP_pos_iff]
        exact ⟨svc, hsvc_mem, by simp [hsu]⟩
      have hdc1 : defaultCount st.services u = 1 := (hdef u).2 hucpos
      have hdc_rem0 : defaultCount rem u = 0 := by
        have hx := hrem_def u
        rw [hdc1] at hx
        simp only [hsu, hd, beq_self_eq_true, Bool.and_self, if_pos] at hx
        omega
      rcases hl : latestService (rem.filter (fun s => s.userID == u)) with
        _ | nxt
      · have hemptyu : rem.filter (fun s => s.userID == u) = [] :=
          latestService_none _ hl
        have huc_rem0 : userCount rem u = 0 := by
          show rem.countP (fun s => s.userID == u) = 0
          rw [List.countP_eq_length_filter, hemptyu]
          rfl
        refine ⟨?_, ?_, ?_⟩
        · show ∀ s ∈ rem, s.id < st.nextID
          exact hidb_rem
        · show (rem.map UserService.id).Nodup
          exact hnd_rem
        · intro u2
          show defaultCount rem u2 ≤ 1 ∧
            (0 < userCount rem u2 → defaultCount rem u2 = 1)
          by_cases hu2 : u2 = u
          · subst hu2
            rw [hdc_rem0, huc_rem0]
            exact ⟨Nat.zero_le _, fun hx => absurd hx (by omega)⟩
          · have hbe : ((svc.userID == u2) : Bool) = false := by
              rw [hsu]
              simpa using Ne.symm hu2
            have hx := hrem_def u2
            have hy := hrem_user u2
            rw [hbe] at hx hy
            simp only [Bool.false_and, if_neg] at hx hy
            simp only [Bool.false_eq_true, if_false] at hx hy
            have := hdef u2
            constructor
            · omega
            · intro hpos
              have hpos2 : 0 < userCount st.services u2 := by omega
              have h3 := (hdef u2).2 hpos2
              omega
      · have hspec := latestService_spec _ _ hl
        have hnmem_f : nxt ∈ rem.filter (fun s => s.userID == u) := hspec.1
        have hnmem : nxt ∈ rem := List.mem_of_mem_filter hnmem_f
        have hnu : nxt.userID = u := by
          simpa using (List.mem_filter.mp hnmem_f).2
        have hdc_new : defaultCount (setDefaultByID rem nxt.id) u = 1 :=
          defaultCount_setDefaultByID_unique rem nxt.id u hnd_rem nxt hnmem
            rfl hnu hdc_rem0
        have hdc_new_other : ∀ u2 : Int, u2 ≠ u →
            defaultCount (setDefaultByID rem nxt.id) u2 =
              defaultCount rem u2 := by
          intro u2 hu2
          unfold setDefaultByID
          apply defaultCount_map_pres
          · intro s hs hsu2
            rw [if_neg (fun hbad => hu2 (by
              rw [← hsu2, List.inj_on_of_nodup_map hnd_rem hs hnmem hbad,
                hnu]))]
          · intro s _
            by_cases hsn : s.id = nxt.id <;> simp [hsn]
        refine ⟨?_, ?_, ?_⟩
        · show ∀ s ∈ setDefaultByID rem nxt.id, s.id < st.nextID
          exact idBound_of_ids_eq _ rem st.nextID
            (ids_setDefaultByID rem nxt.id) hidb_rem
        · show ((setDefaultByID rem nxt.id).map UserService.id).Nodup
          rw [ids_setDefaultByID]
          exact hnd_rem
        · intro u2
          show defaultCount (setDefaultByID rem nxt.id) u2 ≤ 1 ∧
            (0 < userCount (setDefaultByID rem nxt.id) u2 →
              defaultCount (setDefaultByID rem nxt.id) u2 = 1)
          by_cases hu2 : u2 = u
          · subst hu2
            rw [hdc_new]
            exact ⟨le_refl _, fun _ => rfl⟩
          · rw [hdc_new_other u2 hu2, userCount_setDefaultByID]
            have hbe : ((svc.userID == u2) : Bool) = false := by
              rw [hsu]
              simpa using Ne.symm hu2
            have hx := hrem_def u2
            have hy := hrem_user u2
            rw [hbe] at hx hy
            simp only [Bool.false_and, Bool.false_eq_true, if_false] at hx hy
            have := hdef u2
            constructor
            · omega
            · intro hpos
              have hpos2 : 0 < userCount st.services u2 := by omega
              have h3 := (hdef u2).2 hpos2
              omega
    · rw [if_neg hd]
      have hd2 : svc.isDefault = false := by
        revert hd
        cases svc.isDefault <;> simp
      refine ⟨?_, ?_, ?_⟩
      · show ∀ s ∈ rem, s.id < st.nextID
        exact hidb_rem
      · show (rem.map UserService.id).Nodup
        exact hnd_rem
      · intro u2
        show defaultCount rem u2 ≤ 1 ∧
          (0 < userCount rem u2 → defaultCount rem u2 = 1)
        have hx := hrem_def u2
        have hy := hrem_user u2
        rw [hd2] at hx
        simp only [Bool.and_false, Bool.false_eq_true, if_false] at hx
        by_cases hu2 : u2 = u
        · subst hu2
          constructor
          · have := hdef u2
            omega
          · intro hpos
            have hpos2 : 0 < userCount st.services u2 := by omega
            have h3 := (hdef u2).2 hpos2
            omega
        · have hbe : ((svc.userID == u2) : Bool) = false := by
            rw [hsu]
            simpa using Ne.symm hu2
          rw [hbe] at hy
          simp only [Bool.false_eq_true, if_false] at hy
          have := hdef u2
          constructor
          · omega
          · intro hpos
            have hpos2 : 0 < userCount st.services u2 := by omega
            have h3 := (hdef u2).2 hpos2
            omega

theorem wf_empty : StoreWF emptyStore := by
  refine ⟨?_, ?_, ?_⟩
  · intro s hs
    simp [emptyStore] at hs
  · simp [emptyStore]
  · intro u
    simp [emptyStore, defaultCount, userCount]

theorem wf_applySvcOp (st : ServiceStore) (op : SvcOp) (h : StoreWF st) :
    StoreWF (applySvcOp st op) := by
  cases op with
  | add u d => exact wf_add st u d h
  | setDefault u sid => exact wf_setDefault st u sid h
  | del u sid => exact wf_delete st u sid h

theorem runSvcOps_wf (ops : List SvcOp) : StoreWF (runSvcOps ops) := by
  unfold runSvcOps
  have hgen : ∀ st : ServiceStore, StoreWF st →
      StoreWF (ops.foldl applySvcOp st) := by
    induction ops with
    | nil => intro st h; exact h
    | cons op rest ih =>
      intro st h
      exact ih _ (wf_applySvcOp st op h)
  exact hgen emptyStore wf_empty

theorem delete_promotes (st : ServiceStore) (u : Int) (sid : Nat)
    (svc : UserService)
    (hf : st.services.find? (fun s => s.userID == u && s.id == sid) =
      some svc)
    (hd : svc.isDefault = true) (nxt : UserService)
    (hl : latestService ((st.services.filter
        (fun s => !(s.userID == u && s.id == sid))).filter
        (fun s => s.userID == u)) = some nxt) :
    ∃ s ∈ (deleteUserService st u sid).services,
      s.userID = u ∧ s.isDefault = true ∧ s.createdAt = nxt.createdAt ∧
      ∀ t ∈ (deleteUserService st u sid).services,
        t.userID = u → t.createdAt ≤ s.createdAt := by
  unfold deleteUserService
  rw [hf]
  dsimp only
  rw [if_pos hd, hl]
  set rem := st.services.filter
    (fun s => !(s.userID == u && s.id == sid)) with hremdef
  have hspec := latestService_spec _ _ hl
  have hnmem_f : nxt ∈ rem.filter (fun s => s.userID == u) := hspec.1
  have hub := hspec.2
  have hnmem : nxt ∈ rem := List.mem_of_mem_filter hnmem_f
  have hnu : nxt.userID = u := by
    simpa using (List.mem_filter.mp hnmem_f).2
  refine ⟨{ nxt with isDefault := true }, ?_, hnu, rfl, rfl, ?_⟩
  · show { nxt with isDefault := true } ∈ setDefaultByID rem nxt.id
    unfold setDefaultByID
    have hm := List.mem_map_of_mem
      (fun s => if s.id = nxt.id then { s with isDefault := true } else s)
      hnmem
    simpa using hm
  · intro t ht htu
    have ht2 : t ∈ setDefaultByID rem nxt.id := ht
    unfold setDefaultByID at ht2
    obtain ⟨s, hs, hts⟩ := List.mem_map.mp ht2
    have h1 : t.createdAt = s.createdAt := by
      rw [← hts]
      by_cases hsn : s.id = nxt.id <;> simp [hsn]
    have h2 : t.userID = s.userID := by
      rw [← hts]
      by_cases hsn : s.id = nxt.id <;> simp [hsn]
    have hsu2 : s.userID = u := by
      rw [← h2]
      exact htu
    have hb := hub s (List.mem_filter.mpr ⟨hs, by simp [hsu2]⟩)
    show t.createdAt ≤ nxt.createdAt
    omega

/-- C2: starting from an empty store, after every sequence of add, set-default
and delete operations each user has at most one default backend service and
exactly one whenever the user owns at least one; moreover deleting a user's
default row promotes a most recently created remaining row of that user to
default whenever one remains. -/
theorem userService_default_invariant :
    (∀ (ops : List SvcOp) (u : Int),
      defaultCount (runSvcOps ops).services u ≤ 1 ∧
      (0 < userCount (runSvcOps ops).services u →
        defaultCount (runSvcOps ops).services u = 1)) ∧
    (∀ (ops : List SvcOp) (u : Int) (sid : Nat) (svc : UserService),
      (runSvcOps ops).services.find?
          (fun s => s.userID == u && s.id == sid) = some svc →
      svc.isDefault = true →
      ∀ nxt : UserService,
        latestService (((runSvcOps ops).services.filter
            (fun s => !(s.userID == u && s.id == sid))).filter
            (fun s => s.userID == u)) = some nxt →
        ∃ s ∈ (deleteUserService (runSvcOps ops) u sid).services,
          s.userID = u ∧ s.isDefault = true ∧
          s.createdAt = nxt.createdAt ∧
          ∀ t ∈ (deleteUserService (runSvcOps ops) u sid).services,
            t.userID = u → t.createdAt ≤ s.createdAt) := by
  constructor
  · intro ops u
    exact (runSvcOps_wf ops).defaults u
  · intro ops u sid svc hf hd nxt hl
    exact delete_promotes (runSvcOps ops) u sid svc hf hd nxt hl

theorem userService_default_invariant_witness :
    defaultCount
        (runSvcOps [SvcOp.add 7 true, SvcOp.add 7 false]).services 7 = 1 ∧
    ∃ s ∈ (deleteUserService
        (runSvcOps [SvcOp.add 7 true, SvcOp.add 7 false]) 7 1).services,
      s.userID = 7 ∧ s.isDefault = true ∧ s.createdAt = 1 ∧
      ∀ t ∈ (deleteUserService
          (runSvcOps [SvcOp.add 7 true, SvcOp.add 7 false]) 7 1).services,
        t.userID = 7 → t.createdAt ≤ s.createdAt := by
  constructor
  · exact (userService_default_invariant.1
      [SvcOp.add 7 true, SvcOp.add 7 false] 7).2 (by decide)
  · exact userService_default_invariant.2
      [SvcOp.add 7 true, SvcOp.add 7 false] 7 1 ⟨1, 7, true, 0⟩
      (by decide) (by decide) ⟨2, 7, false, 1⟩ (by decide)

end TgBawer
